import Mathlib

/-
  Verification of the grant-tracker search/persistence code.

  Shallow embedding conventions:
  * JavaScript strings are embedded as `List Char` (`JStr`); the string
    functions below mirror the exact regex/`includes`/`split` behaviour of
    the source on ASCII text.
  * JavaScript numbers are embedded as `Rat`; `Option Rat` (resp.
    `Option Int`) stands for a number-or-NaN value, `none` being NaN.
  * `Date` values are embedded as calendar triples (`SDate`); JavaScript
    `setDate`/ms arithmetic is day-level `addDays`.  Time zones and
    sub-day precision are not modelled (every source use is date-only).
  * Network and KV effects are passed in as explicit outcome values.
-/

set_option maxRecDepth 4000

namespace GrantTracker

/-- JavaScript strings, embedded as character lists. -/
abbrev JStr := List Char

/-- Literal helper: the character list of a Lean string literal. -/
def js (s : String) : JStr := s.data

/-- ASCII lower-casing, the effect of JavaScript toLowerCase on the
ASCII texts handled here. -/
def lcStr (s : JStr) : JStr := s.map Char.toLower

/-- Whether `pre` is an initial segment of `s` (case-sensitive). -/
def startsWithL : JStr → JStr → Bool
  | [], _ => true
  | _ :: _, [] => false
  | p :: ps, c :: cs => p = c && startsWithL ps cs

/-- Whether `pre` is an initial segment of `s`, comparing lower-cased
characters (for the /i regex flags in the source). -/
def startsWithCI (p s : JStr) : Bool := startsWithL (lcStr p) (lcStr s)

/-- JavaScript `hay.includes(needle)` (empty needle always matches). -/
def containsL (needle : JStr) : JStr → Bool
  | [] => startsWithL needle []
  | c :: cs => startsWithL needle (c :: cs) || containsL needle cs

/-- Split `s` at the first occurrence of `needle`, returning the part
before and the part after the needle. -/
def splitAtSub (needle : JStr) : JStr → Option (JStr × JStr)
  | [] => if needle.isEmpty then some ([], []) else none
  | c :: cs =>
    if startsWithL needle (c :: cs) then some ([], List.drop needle.length (c :: cs))
    else match splitAtSub needle cs with
         | some (pre, post) => some (c :: pre, post)
         | none => none

/-- Split `s` at the first case-insensitive occurrence of `needle`. -/
def splitAtSubCI (needle : JStr) : JStr → Option (JStr × JStr)
  | [] => if needle.isEmpty then some ([], []) else none
  | c :: cs =>
    if startsWithCI needle (c :: cs) then some ([], List.drop needle.length (c :: cs))
    else match splitAtSubCI needle cs with
         | some (pre, post) => some (c :: pre, post)
         | none => none

/-- Split `s` at the first occurrence of the character `ch`. -/
def splitAtChar (ch : Char) : JStr → Option (JStr × JStr)
  | [] => none
  | c :: cs =>
    if c = ch then some ([], cs)
    else match splitAtChar ch cs with
         | some (pre, post) => some (c :: pre, post)
         | none => none

/-- The whitespace class of the JavaScript regex \s, restricted to the
ASCII whitespace appearing in the data handled here. -/
def isWs (c : Char) : Bool := c = ' ' || c = '\t' || c = '\n' || c = '\r'

/-- JavaScript trim: strip leading and trailing whitespace. -/
def trimL (s : JStr) : JStr :=
  ((s.dropWhile isWs).reverse.dropWhile isWs).reverse

/-- Replace every maximal run of whitespace by a single space
(the replace of \s+ by a space), tracked by a previous-was-ws flag. -/
def collapseWsGo (prevWs : Bool) : JStr → JStr
  | [] => []
  | c :: cs =>
    if isWs c then
      if prevWs then collapseWsGo true cs else ' ' :: collapseWsGo true cs
    else c :: collapseWsGo false cs

def collapseWs (s : JStr) : JStr := collapseWsGo false s

/-- JavaScript split on a single space character, keeping empty pieces. -/
def splitSpGo (cur : JStr) : JStr → List JStr
  | [] => [cur.reverse]
  | c :: cs => if c = ' ' then cur.reverse :: splitSpGo [] cs else splitSpGo (c :: cur) cs

def splitSp (s : JStr) : List JStr := splitSpGo [] s

/-- Join pieces with single spaces (Array.prototype.join with a space). -/
def joinSp : List JStr → JStr
  | [] => []
  | [p] => p
  | p :: ps => p ++ ' ' :: joinSp ps

/-- Digit test of the regex class [0-9]. -/
def isDig (c : Char) : Bool := '0' ≤ c && c ≤ '9'

/-- Member of the regex class [0-9,]. -/
def isDigComma (c : Char) : Bool := isDig c || c = ','

/-- Numeric value of a decimal digit character. -/
def digVal (c : Char) : Nat := c.toNat - '0'.toNat

/-- Value of a digit string (most significant first). -/
def digitsVal (ds : JStr) : Nat := ds.foldl (fun n c => 10 * n + digVal c) 0

/-- Longest digit prefix value, `none` when there is no leading digit. -/
def digitsPrefix (s : JStr) : Option Nat :=
  let ds := s.takeWhile isDig
  if ds.isEmpty then none else some (digitsVal ds)

/-- JavaScript parseInt (radix 10): skip leading whitespace, optional
sign, then the longest digit prefix; `none` embeds NaN. -/
def parseIntJS (s : JStr) : Option Int :=
  let t := s.dropWhile isWs
  match t with
  | '-' :: tl => (digitsPrefix tl).map (fun n => -(n : Int))
  | '+' :: tl => (digitsPrefix tl).map (fun n => (n : Int))
  | _ => (digitsPrefix t).map (fun n => (n : Int))

/-- JavaScript parseFloat restricted to the shapes produced by the
amount regexes: optional digits, an optional dot followed by digits.
`none` is NaN (no digits at all). -/
def parseFloatJS (s : JStr) : Option Rat :=
  let intPart := s.takeWhile isDig
  let rest := s.dropWhile isDig
  match rest with
  | '.' :: tl =>
    let fracPart := tl.takeWhile isDig
    if intPart.isEmpty && fracPart.isEmpty then none
    else some ((digitsVal intPart : Rat) + (digitsVal fracPart : Rat) / ((10 : Rat) ^ fracPart.length))
  | _ => if intPart.isEmpty then none else some ((digitsVal intPart : Rat))

/- ===================== calendar dates ===================== -/

/-- A calendar date (year, month 1-12, day 1-31), the embedding of a
JavaScript Date at day granularity. -/
structure SDate where
  y : Nat
  m : Nat
  d : Nat
deriving DecidableEq, Repr, Inhabited

/-- Gregorian leap-year rule. -/
def isLeap (y : Nat) : Bool := (y % 4 = 0 && y % 100 ≠ 0) || y % 400 = 0

/-- Days in a month (months outside 1..12 never arise on valid dates). -/
def daysInMonth (y m : Nat) : Nat :=
  if m = 2 then (if isLeap y then 29 else 28)
  else if m = 4 || m = 6 || m = 9 || m = 11 then 30
  else 31

/-- A date denotes a real calendar day. -/
def validDate (dt : SDate) : Prop :=
  1 ≤ dt.m ∧ dt.m ≤ 12 ∧ 1 ≤ dt.d ∧ dt.d ≤ daysInMonth dt.y dt.m

instance (dt : SDate) : Decidable (validDate dt) := by
  unfold validDate; infer_instance

/-- The successor day, normalizing month and year boundaries. -/
def nextDay (dt : SDate) : SDate :=
  if dt.d < daysInMonth dt.y dt.m then ⟨dt.y, dt.m, dt.d + 1⟩
  else if dt.m < 12 then ⟨dt.y, dt.m + 1, 1⟩
  else ⟨dt.y + 1, 1, 1⟩

/-- Adding n days, the embedding of JavaScript setDate / getTime
millisecond offsets at day granularity. -/
def addDays (n : Nat) (dt : SDate) : SDate := nextDay^[n] dt

/-- Strict order of calendar days (the order getTime induces for the
date-only values compared in the source). -/
def dateLt (a b : SDate) : Bool :=
  a.y < b.y || (a.y = b.y && (a.m < b.m || (a.m = b.m && a.d < b.d)))

/-- Days before month m (m in 1..12) in a non-leap year. -/
def monthOffset (m : Nat) : Nat :=
  [0, 0, 31, 59, 90, 120, 151, 181, 212, 243, 273, 304, 334].getD m 0

/-- A day count for a date (fixed-offset linearization of getTime; only
differences of two such counts are ever used, in sort comparators). -/
def dayNumber (dt : SDate) : Nat :=
  365 * dt.y + dt.y / 4 - dt.y / 100 + dt.y / 400 + monthOffset dt.m
    + (if 2 < dt.m && isLeap dt.y then 1 else 0) + dt.d

/-- Millisecond clock value of a date (midnight), as used by getTime. -/
def dateMs (dt : SDate) : Int := (dayNumber dt : Int) * 86400000

/-- The JavaScript Date constructor on an M/D/YYYY string: V8 accepts
month 1-12 and day 1-31 and rolls an overflowing day over into the next
month (day d of month m is day 1 plus d-1 successor steps). -/
def jsParseMDY (m d y : Nat) : Option SDate :=
  if 1 ≤ m && m ≤ 12 && 1 ≤ d && d ≤ 31 then some (addDays (d - 1) ⟨y, m, 1⟩)
  else none

/- ===================== the grant record ===================== -/

/-- The normalized grant record shape produced by the adapters.  String
fields are JStr, numeric fields Rat, the deadline a calendar date.
(`requirements` is a Lean list, the embedding of the always-an-array
requirement field; the ad hoc extra flags such as isRSSResult/sourceType
are spread-throughs that no modelled function reads, and are omitted.) -/
structure GrantRec where
  id : JStr
  title : JStr
  funder : JStr
  description : JStr
  amount : Rat
  deadline : SDate
  category : JStr
  requirements : List JStr
  source : JStr
  url : JStr
  matchPercentage : Rat
  funderType : JStr
deriving DecidableEq, Repr, Inhabited

/-- The fixed category taxonomy of the data model. -/
def taxonomy : List JStr :=
  [js "Health", js "Education", js "Environment", js "Arts", js "Community",
   js "Technology", js "Research", js "Youth", js "Federal", js "General", js "Other"]

/- ===================== functions/search-grants-enhanced.ts ===================== -/

namespace Enhanced

/-- Query parameters of the enhanced endpoint (all raw strings, the
empty string standing for an absent/falsy parameter). -/
structure SearchParams where
  query : JStr
  category : JStr
  minAmount : JStr
  maxAmount : JStr
  location : JStr
  funderType : JStr
  includeRSS : JStr
  fresh : JStr
deriving DecidableEq, Repr, Inhabited

/-- grant.amount lower-bound check: empty minAmount parameter is falsy
and defaults to 0; a NaN parse makes the comparison false. -/
def minOk (a : Rat) (s : JStr) : Bool :=
  if s.isEmpty then (0 : Rat) ≤ a
  else match parseIntJS s with
       | none => false
       | some n => (n : Rat) ≤ a

/-- grant.amount upper-bound check: empty maxAmount parameter defaults
to Infinity (always true); a NaN parse makes the comparison false. -/
def maxOk (a : Rat) (s : JStr) : Bool :=
  if s.isEmpty then true
  else match parseIntJS s with
       | none => false
       | some n => a ≤ (n : Rat)

/-- grantMatchesQuery of search-grants-enhanced.ts: at least one
query term occurs in title/description/funder, and the category,
amount-range and funderType filters pass when specified. -/
def grantMatchesQuery (g : GrantRec) (p : SearchParams) : Bool :=
  let searchText := lcStr (g.title ++ ' ' :: g.description ++ ' ' :: g.funder)
  let queryTerms := splitSp (lcStr p.query)
  let hasQueryMatch := queryTerms.any (fun t => containsL t searchText)
  let categoryMatch := p.category.isEmpty || containsL (lcStr p.category) (lcStr g.category)
  let amountMatch := minOk g.amount p.minAmount && maxOk g.amount p.maxAmount
  let funderTypeMatch := p.funderType.isEmpty || containsL (lcStr p.funderType) (lcStr g.funderType)
  hasQueryMatch && categoryMatch && amountMatch && funderTypeMatch

/-- normalizeText of generateSimilarityKey: lowercase, strip everything
but a-z, 0-9 and whitespace, collapse whitespace runs, trim. -/
def normalizeText (t : JStr) : JStr :=
  trimL (collapseWs ((lcStr t).filter (fun c => ('a' ≤ c && c ≤ 'z') || isDig c || isWs c)))

/-- generateSimilarityKey: first 3 normalized title words joined with a
space, an underscore, first 2 normalized funder words. -/
def generateSimilarityKey (title funder : JStr) : JStr :=
  joinSp ((splitSp (normalizeText title)).take 3) ++ '_' :: joinSp ((splitSp (normalizeText funder)).take 2)

/-- The similarity key of a record. -/
def simKey (g : GrantRec) : JStr := generateSimilarityKey g.title g.funder

/-- First value stored under key k (the seen.get of the Map). -/
def lookupA (k : JStr) : List (JStr × GrantRec) → Option GrantRec
  | [] => none
  | (k2, g) :: rest => if k2 = k then some g else lookupA k rest

/-- Overwrite the value stored under key k in place (the
unique[index] = result / seen.set update; keys are unique, so this
touches exactly the one existing slot and keeps its position). -/
def replaceA (k : JStr) (r : GrantRec) : List (JStr × GrantRec) → List (JStr × GrantRec)
  | [] => []
  | (k2, g) :: rest =>
    if k2 = k then (k2, r) :: replaceA k r rest else (k2, g) :: replaceA k r rest

/-- One iteration of the dedup loop: unseen key is appended; on a seen
key the stored record is replaced exactly when the new matchPercentage
is strictly higher. -/
def dedupStep (acc : List (JStr × GrantRec)) (r : GrantRec) : List (JStr × GrantRec) :=
  match lookupA (simKey r) acc with
  | none => acc ++ [(simKey r, r)]
  | some ex => if ex.matchPercentage < r.matchPercentage then replaceA (simKey r) r acc else acc

/-- The dedup loop over the whole input (key/winner pairs in first-seen
key order). -/
def dedupPass (results : List GrantRec) : List (JStr × GrantRec) :=
  results.foldl dedupStep []

/-- deduplicateAndFilter: the dedup loop followed by the
grantMatchesQuery filter. -/
def deduplicateAndFilter (results : List GrantRec) (p : SearchParams) : List GrantRec :=
  ((dedupPass results).map Prod.snd).filter (fun g => grantMatchesQuery g p)

/-- The sort comparator: matchPercentage descending, then absolute
distance of the deadline from now ascending. -/
def cmpGrants (nowMs : Int) (a b : GrantRec) : Rat :=
  if b.matchPercentage ≠ a.matchPercentage then b.matchPercentage - a.matchPercentage
  else ((dateMs a.deadline - nowMs).natAbs : Rat) - ((dateMs b.deadline - nowMs).natAbs : Rat)

/-- The response shape of performEnhancedSearch (the sources diagnostic
array carries no data the modelled claims read and is omitted; note the
shape has no error field at all). -/
structure EnhResponse where
  results : List GrantRec
  totalFound : Nat
  searchParams : SearchParams
  timestamp : JStr
deriving DecidableEq, Repr, Inhabited

/-- performEnhancedSearch: concatenate the RSS (when includeRSS is the
string true), traditional-API and cached-store contributions in that
fixed order, dedup/filter, sort, and return the top 20 with the total
count.  The three source contributions are the outcomes of the three
awaited calls (each of which catches its own failures). -/
def performEnhancedSearch (p : SearchParams) (rssRecs apiRecs cachedRecs : List GrantRec)
    (nowMs : Int) (nowIso : JStr) : EnhResponse :=
  let allResults := (if p.includeRSS = js "true" then rssRecs else []) ++ apiRecs ++ cachedRecs
  let uniqueResults := deduplicateAndFilter allResults p
  let sorted := uniqueResults.mergeSort (fun a b => cmpGrants nowMs a b ≤ 0)
  ⟨sorted.take 20, uniqueResults.length, p, nowIso⟩

/-- The cache interaction of the enhanced handler after computing
searchResults: the KV put is unconditional (lines 72-75), so every
computed response is written; only the catch-all 500 path (where no
response was computed) skips the write. -/
def handlerCacheWrite : Except JStr EnhResponse → Option EnhResponse
  | .ok r => some r
  | .error _ => none

end Enhanced

/- ===================== functions/search-grants.ts ===================== -/

namespace SearchBasic

/-- Response shape of the basic search computations: an error flag
(true on the all-APIs-down object, which carries results equal to []),
the results list and totalFound. -/
structure BasicResponse where
  error : Bool
  results : List GrantRec
  totalFound : Nat
deriving DecidableEq, Repr, Inhabited

/-- searchGrantsGov of search-grants.ts is a stub returning no records. -/
def searchGrantsGov : List GrantRec := []

/-- searchFoundationDirectory of search-grants.ts is a stub returning no
records. -/
def searchFoundationDirectory : List GrantRec := []

/-- searchFederalAgencies of search-grants.ts is a stub returning no
records. -/
def searchFederalAgencies : List GrantRec := []

/-- searchGrantOpportunities of search-grants.ts: on an exception inside
the try block, the error object with empty results; otherwise the
concatenated adapter results (API-key-gated) sliced to 10. -/
def searchGrantOpportunities (threw : Bool) (hasGGKey hasFDKey : Bool) : BasicResponse :=
  if threw then ⟨true, [], 0⟩
  else
    let results := (if hasGGKey then searchGrantsGov else [])
      ++ (if hasFDKey then searchFoundationDirectory else []) ++ searchFederalAgencies
    ⟨false, results.take 10, results.length⟩

/-- searchRSSFeeds of search-grants.ts: each feed contributes the list
fetchAndParseRSSFeed returned for it (that function catches its own
failures and returns [], and a throwing feed is skipped by the inner
catch, again contributing []); the outer catch produces the error
object with empty results. -/
def searchRSSFeeds (threw : Bool) (feedRecs : List (List GrantRec)) : BasicResponse :=
  if threw then ⟨true, [], 0⟩
  else
    let results := feedRecs.flatten
    ⟨false, results.take 15, results.length⟩

/-- The write gate of the basic handler (lines 91-96): cache only when
the results list is non-empty. -/
def cacheWrite (r : BasicResponse) : Option BasicResponse :=
  if r.results.length > 0 then some r else none

/-- extractAmount regex of search-grants.ts: leftmost match of an
optional dollar sign followed by at least one digit-or-comma, with an
optional dot and two digits; the capture is the part after the optional
dollar sign.  Returns the capture and ignores the rest. -/
def capDigits (s : JStr) : Option JStr :=
  let run := s.takeWhile isDigComma
  let rest := s.dropWhile isDigComma
  if run.isEmpty then none
  else match rest with
       | '.' :: d1 :: d2 :: _ =>
         if isDig d1 && isDig d2 then some (run ++ '.' :: d1 :: [d2]) else some run
       | _ => some run

/-- Leftmost scan for the extractAmount regex: a position matches when
it starts with a digit/comma, or with a dollar sign directly followed
by one. -/
def scanAmount : JStr → Option JStr
  | [] => none
  | c :: rest =>
    if c = '$' then
      match capDigits rest with
      | some cap => some cap
      | none => scanAmount rest
    else if isDigComma c then capDigits (c :: rest)
    else scanAmount rest

/-- extractAmount of search-grants.ts: parseInt of the comma-stripped
capture when the regex matches (none embeds the NaN this yields when
the capture holds only commas), 0 otherwise. -/
def extractAmount (text : JStr) : Option Int :=
  match scanAmount text with
  | some cap => parseIntJS (cap.filter (fun c => c != ','))
  | none => some 0

/-- The keyword table of extractCategory in search-grants.ts, in
declaration order: education, health, environment, arts, community. -/
def categories : List (JStr × List JStr) :=
  [(js "education", [js "education", js "school", js "student", js "learning"]),
   (js "health", [js "health", js "medical", js "healthcare", js "wellness"]),
   (js "environment", [js "environment", js "climate", js "conservation", js "green"]),
   (js "arts", [js "arts", js "culture", js "music", js "theater", js "creative"]),
   (js "community", [js "community", js "social", js "development", js "nonprofit"])]

/-- charAt(0).toUpperCase() + slice(1). -/
def capitalize : JStr → JStr
  | [] => []
  | c :: cs => c.toUpper :: cs

/-- extractCategory of search-grants.ts: a non-empty preferred category
is returned as-is; otherwise the first table entry with a keyword
occurring in the lower-cased text wins, else General. -/
def extractCategory (text : JStr) (preferredCategory : JStr) : JStr :=
  if !preferredCategory.isEmpty then preferredCategory
  else
    let lowerText := lcStr text
    match categories.find? (fun e => e.2.any (fun kw => containsL kw lowerText)) with
    | some e => capitalize e.1
    | none => js "General"

/-- extractRequirements of search-grants.ts: fixed case-sensitive
substring checks; no default entry is appended when nothing matches. -/
def extractRequirements (text : JStr) : List JStr :=
  (if containsL (js "501(c)(3)") text || containsL (js "nonprofit") text
   then [js "501(c)(3) status"] else [])
  ++ (if containsL (js "proposal") text || containsL (js "application") text
      then [js "Detailed proposal"] else [])
  ++ (if containsL (js "budget") text then [js "Budget documentation"] else [])
  ++ (if containsL (js "evaluation") text || containsL (js "outcome") text
      then [js "Evaluation plan"] else [])

end SearchBasic

/- ===================== functions/api/search-rss-grants.ts ===================== -/

namespace Rss

/-- An RSS feed source entry (the field called type in the source). -/
structure Feed where
  url : JStr
  name : JStr
  ftype : JStr
  active : Bool
deriving DecidableEq, Repr, Inhabited

/-- Replace every CDATA section by its contents (the global lazy CDATA
regex replace).  The fuel starts at the string length, which bounds the
number of steps since every step consumes at least one character. -/
def replCDataF : Nat → JStr → JStr
  | 0, s => s
  | _ + 1, [] => []
  | fuel + 1, c :: cs =>
    if startsWithL (js "<![CDATA[") (c :: cs) then
      match splitAtSub (js "]]>") (List.drop 9 (c :: cs)) with
      | some (inner, after) => inner ++ replCDataF fuel after
      | none => c :: replCDataF fuel cs
    else c :: replCDataF fuel cs

def replCData (s : JStr) : JStr := replCDataF s.length s

/-- Remove every complete angle-bracket tag (the global replace of the
tag regex); an unclosed trailing bracket is kept, as the regex then has
no match there.  `pending` buffers (reversed) the characters since the
still-unclosed candidate bracket. -/
def stripTagsGo (pending : JStr) : JStr → JStr
  | [] => pending.reverse
  | c :: cs =>
    if pending.isEmpty then
      if c = '<' then stripTagsGo [c] cs else c :: stripTagsGo [] cs
    else
      if c = '>' then stripTagsGo [] cs
      else stripTagsGo (c :: pending) cs

def stripTags (s : JStr) : JStr := stripTagsGo [] s

/-- Global replace of a fixed non-empty needle (left to right, not
rescanning replacements), fuel-bounded by the string length. -/
def replaceAllF (needle repl : JStr) : Nat → JStr → JStr
  | 0, s => s
  | _ + 1, [] => []
  | fuel + 1, c :: cs =>
    if !needle.isEmpty && startsWithL needle (c :: cs) then
      repl ++ replaceAllF needle repl fuel (List.drop needle.length (c :: cs))
    else c :: replaceAllF needle repl fuel cs

def replaceAll (needle repl s : JStr) : JStr := replaceAllF needle repl s.length s

/-- cleanText of search-rss-grants.ts: drop CDATA wrappers, strip tags,
decode the five entities, collapse whitespace, trim. -/
def cleanText (text : JStr) : JStr :=
  trimL (collapseWs (replaceAll (js "&nbsp;") (js " ")
    (replaceAll (js "&gt;") (js ">")
    (replaceAll (js "&lt;") (js "<")
    (replaceAll (js "&amp;") (js "&")
    (replaceAll (js "&quot;") (js "\"")
    (stripTags (replCData text))))))))

/-- Leftmost match of the per-tag extraction regex: an opening bracket
with the tag name (case-insensitively), anything up to the closing
bracket of the opening tag, then the lazily-shortest body up to the
closing tag; returns the raw captured body. -/
def extractTagRaw (tag : JStr) : JStr → Option JStr
  | [] => none
  | c :: cs =>
    if startsWithCI ('<' :: tag) (c :: cs) then
      match splitAtChar '>' (List.drop (tag.length + 1) (c :: cs)) with
      | some (_, afterGt) =>
        match splitAtSubCI ('<' :: '/' :: (tag ++ ['>'])) afterGt with
        | some (inner, _) => some inner
        | none => extractTagRaw tag cs
      | none => extractTagRaw tag cs
    else extractTagRaw tag cs

/-- The extractTag helper of parseRSSItem: cleaned capture, or the
empty string when the tag is absent. -/
def extractTag (xml : JStr) (tag : JStr) : JStr :=
  match extractTagRaw tag xml with
  | some inner => cleanText inner
  | none => []

/-- Character class of the funder regexes: anything but a dot,
semicolon or comma. -/
def isNotDelim (c : Char) : Bool := c ≠ '.' && c ≠ ';' && c ≠ ','

/-- Greedy non-delimiter run of length lo..hi at the head (the
quantified character class of the funder regexes). -/
def capRange (lo hi : Nat) (s : JStr) : Option JStr :=
  let run := (s.takeWhile isNotDelim).take hi
  if lo ≤ run.length then some run else none

/-- Leftmost match of a case-insensitive literal followed by a bounded
non-delimiter run; the capture optionally includes the literal. -/
def scanLitRange (lit : JStr) (lo hi : Nat) (inclLit : Bool) : JStr → Option JStr
  | [] => none
  | c :: cs =>
    if startsWithCI lit (c :: cs) then
      match capRange lo hi (List.drop lit.length (c :: cs)) with
      | some cap => some ((if inclLit then List.take lit.length (c :: cs) else []) ++ cap)
      | none => scanLitRange lit lo hi inclLit cs
    else scanLitRange lit lo hi inclLit cs

/-- The regex word-character class. -/
def isWordChar (c : Char) : Bool :=
  ('a' ≤ c && c ≤ 'z') || ('A' ≤ c && c ≤ 'Z') || isDig c || c = '_'

/-- Leftmost match of a word followed by the literal foundation and up
to twenty trailing non-delimiters (the second funder pattern). -/
def scanWordFoundation : JStr → Option JStr
  | [] => none
  | c :: cs =>
    if isWordChar c then
      let run := (c :: cs).takeWhile isWordChar
      let rest := (c :: cs).dropWhile isWordChar
      if startsWithCI (js " foundation") rest then
        some (run ++ List.take 11 rest ++ ((List.drop 11 rest).takeWhile isNotDelim).take 20)
      else scanWordFoundation cs
    else scanWordFoundation cs

/-- A funder pattern hit is used only when its trimmed capture is
longer than three characters. -/
def funderPick (o : Option JStr) : Option JStr :=
  match o with
  | some cap => if 3 < (trimL cap).length then some (trimL cap) else none
  | none => none

/-- extractFunder of search-rss-grants.ts: the four patterns in order,
falling back to the feed name. -/
def extractFunder (description : JStr) (feed : Feed) : JStr :=
  ((funderPick (scanLitRange (js "funded by ") 5 50 false description)).orElse (fun _ =>
   (funderPick (scanWordFoundation description)).orElse (fun _ =>
   (funderPick (scanLitRange (js "department of ") 5 40 true description)).orElse (fun _ =>
    funderPick (scanLitRange (js "national ") 5 40 true description))))).getD feed.name

/-- The digit-or-comma group with an optional two-decimal tail, matched
greedily at the head of the string. -/
def capAmt (s : JStr) : Option JStr :=
  let run := s.takeWhile isDigComma
  let rest := s.dropWhile isDigComma
  if run.isEmpty then none
  else match rest with
       | '.' :: d1 :: d2 :: _ =>
         if isDig d1 && isDig d2 then some (run ++ '.' :: d1 :: [d2]) else some run
       | _ => some run

/-- The million-or-m suffix after optional whitespace (group 2 of the
first amount pattern, case-insensitive). -/
def millionSuffix (s : JStr) : Bool :=
  let rest := s.dropWhile isWs
  startsWithCI (js "million") rest || startsWithCI (js "m") rest

/-- The first amount pattern at one position: a dollar sign, the
amount group, then the million suffix; the regex backtracks over the
optional decimals when the suffix fails after them. -/
def tryPat1At : JStr → Option JStr
  | [] => none
  | c :: rest =>
    if c = '$' then
      let run := rest.takeWhile isDigComma
      let rest2 := rest.dropWhile isDigComma
      if run.isEmpty then none
      else
        match rest2 with
        | '.' :: d1 :: d2 :: tl =>
          if isDig d1 && isDig d2 && millionSuffix tl then some (run ++ '.' :: d1 :: [d2])
          else if millionSuffix rest2 then some run
          else none
        | _ => if millionSuffix rest2 then some run else none
    else none

def scanPat1 : JStr → Option JStr
  | [] => none
  | c :: cs =>
    match tryPat1At (c :: cs) with
    | some cap => some cap
    | none => scanPat1 cs

/-- The second amount pattern at one position: a dollar sign and the
amount group. -/
def tryPat2At : JStr → Option JStr
  | [] => none
  | c :: rest => if c = '$' then capAmt rest else none

def scanPat2 : JStr → Option JStr
  | [] => none
  | c :: cs =>
    match tryPat2At (c :: cs) with
    | some cap => some cap
    | none => scanPat2 cs

/-- The third amount pattern at one position: the digit group, optional
whitespace, the literal dollars (case-insensitive). -/
def tryPat3At (s : JStr) : Option JStr :=
  let run := s.takeWhile isDigComma
  let rest := s.dropWhile isDigComma
  if run.isEmpty then none
  else if startsWithCI (js "dollars") (rest.dropWhile isWs) then some run else none

def scanPat3 : JStr → Option JStr
  | [] => none
  | c :: cs =>
    match tryPat3At (c :: cs) with
    | some cap => some cap
    | none => scanPat3 cs

/-- parseFloat of the comma-stripped capture, times a million when the
suffix group matched; a result that is not strictly positive falls
through to the next pattern, embedded as none. -/
def patAmount (o : Option JStr) (millions : Bool) : Option Rat :=
  match o with
  | none => none
  | some cap =>
    match parseFloatJS (cap.filter (fun c => c != ',')) with
    | some q =>
      let amt := if millions then q * 1000000 else q
      if 0 < amt then some amt else none
    | none => none

/-- extractAmount of search-rss-grants.ts: the three patterns in order,
0 when none yields a positive amount. -/
def extractAmount (text : JStr) : Rat :=
  ((patAmount (scanPat1 text) true).orElse (fun _ =>
   (patAmount (scanPat2 text) false).orElse (fun _ =>
    patAmount (scanPat3 text) false))).getD 0

/-- One-or-two digits followed by a slash, greedily preferring two
digits, as in the date regex. -/
def digits12Slash : JStr → Option (Nat × JStr)
  | a :: b :: c :: tl =>
    if isDig a && isDig b && c = '/' then some (10 * digVal a + digVal b, tl)
    else if isDig a && b = '/' then some (digVal a, c :: tl)
    else none
  | a :: b :: tl => if isDig a && b = '/' then some (digVal a, tl) else none
  | _ => none

/-- Exactly four digits (further digits are simply not consumed). -/
def year4 : JStr → Option Nat
  | a :: b :: c :: d :: _ =>
    if isDig a && isDig b && isDig c && isDig d then
      some (digitsVal [a, b, c, d])
    else none
  | _ => none

/-- The M/D/YYYY pattern anchored at the head of the string. -/
def tryDateAt (s : JStr) : Option (Nat × Nat × Nat) := do
  let (m, s1) ← digits12Slash s
  let (d, s2) ← digits12Slash s1
  let y ← year4 s2
  return (m, d, y)

/-- The lazy non-dot gap before the date group: try the date at every
successive position until a dot or the end of input. -/
def gapScan : JStr → Option (Nat × Nat × Nat)
  | [] => none
  | c :: cs =>
    match tryDateAt (c :: cs) with
    | some d => some d
    | none => if c = '.' then none else gapScan cs

/-- Leftmost match of keyword-then-gap-then-date (the deadline and due
patterns): at each candidate start of the case-insensitive keyword, a
date must follow within the non-dot gap, else the scan moves on. -/
def scanKwDate (kw : JStr) : JStr → Option (Nat × Nat × Nat)
  | [] => none
  | c :: cs =>
    if startsWithCI kw (c :: cs) then
      match gapScan (List.drop kw.length (c :: cs)) with
      | some d => some d
      | none => scanKwDate kw cs
    else scanKwDate kw cs

/-- Leftmost bare M/D/YYYY (the third date pattern). -/
def scanDate : JStr → Option (Nat × Nat × Nat)
  | [] => none
  | c :: cs =>
    match tryDateAt (c :: cs) with
    | some d => some d
    | none => scanDate cs

/-- A matched date is used only when the constructor accepts it and it
lies strictly in the future. -/
def datePass (o : Option (Nat × Nat × Nat)) (now : SDate) : Option SDate :=
  match o with
  | some (m, d, y) =>
    match jsParseMDY m d y with
    | some dt => if dateLt now dt then some dt else none
    | none => none
  | none => none

/-- extractDeadline of search-rss-grants.ts: the three date patterns in
order (each hit filtered through validity and futurity), then
publication date plus sixty days, then today plus sixty days.
`pubDate` is the parse of the publication-date string, none when that
string is empty or unparseable. -/
def extractDeadline (description : JStr) (pubDate : Option SDate) (now : SDate) : SDate :=
  match datePass (scanKwDate (js "deadline") description) now with
  | some dt => dt
  | none =>
    match datePass (scanKwDate (js "due") description) now with
    | some dt => dt
    | none =>
      match datePass (scanDate description) now with
      | some dt => dt
      | none =>
        match pubDate with
        | some base => addDays 60 base
        | none => addDays 60 now

/-- The keyword table of extractCategory in search-rss-grants.ts, in
declaration order: Health, Education, Environment, Technology,
Community, Arts. -/
def categories : List (JStr × List JStr) :=
  [(js "Health", [js "health", js "medical", js "healthcare", js "disease", js "wellness"]),
   (js "Education", [js "education", js "school", js "student", js "learning", js "academic"]),
   (js "Environment", [js "environment", js "climate", js "conservation", js "sustainability"]),
   (js "Technology", [js "technology", js "innovation", js "research", js "digital"]),
   (js "Community", [js "community", js "social", js "development", js "housing"]),
   (js "Arts", [js "arts", js "culture", js "humanities", js "creative"])]

/-- extractCategory of search-rss-grants.ts: the first table entry with
a keyword occurring in the lower-cased text wins, else General. -/
def extractCategory (text : JStr) : JStr :=
  let lowerText := lcStr text
  match categories.find? (fun e => e.2.any (fun kw => containsL kw lowerText)) with
  | some e => e.1
  | none => js "General"

/-- extractRequirements of search-rss-grants.ts: three keyword checks
against the lower-cased description. -/
def extractRequirements (description : JStr) : List JStr :=
  let lowerDesc := lcStr description
  (if containsL (js "501(c)(3)") lowerDesc || containsL (js "nonprofit") lowerDesc
   then [js "501(c)(3) status"] else [])
  ++ (if containsL (js "proposal") lowerDesc then [js "Detailed proposal"] else [])
  ++ (if containsL (js "budget") lowerDesc then [js "Budget documentation"] else [])

/-- parseRSSItem of search-rss-grants.ts.  `idTok` is the freshly
minted id (the Date.now and random suffix), `pubParse` the JavaScript
Date parse of a non-empty pubDate string (none when invalid), `now`
the current date.  A missing or short title yields null. -/
def parseRSSItem (itemXml : JStr) (feed : Feed) (idTok : JStr)
    (pubParse : JStr → Option SDate) (now : SDate) : Option GrantRec :=
  let title := extractTag itemXml (js "title")
  let description := extractTag itemXml (js "description")
  let link := extractTag itemXml (js "link")
  let pubDate := extractTag itemXml (js "pubDate")
  if title.isEmpty || title.length < 5 then none
  else some
    ⟨idTok,
     title.take 200,
     extractFunder description feed,
     description.take 400,
     extractAmount (title ++ ' ' :: description),
     extractDeadline description (if pubDate.isEmpty then none else pubParse pubDate) now,
     extractCategory (title ++ ' ' :: description),
     extractRequirements description,
     js "RSS: " ++ feed.name,
     (if link.isEmpty then feed.url else link),
     80,
     (if feed.ftype = js "federal" then js "Federal" else js "Foundation")⟩

/-- isValidGrant of search-rss-grants.ts. -/
def isValidGrant (g : GrantRec) : Bool :=
  !g.title.isEmpty && 5 < g.title.length
    && !g.description.isEmpty && 10 < g.description.length && !g.funder.isEmpty

/-- One leftmost item-block match: the opening item tag (with attribute
junk up to its closing bracket) and the lazily-shortest body up to the
closing item tag; yields the whole matched block and the remainder. -/
def tryItemAt (s : JStr) : Option (JStr × JStr) :=
  if startsWithCI (js "<item") s then
    match splitAtChar '>' (List.drop 5 s) with
    | some (_, afterGt) =>
      match splitAtSubCI (js "</item>") afterGt with
      | some (_, after) => some (List.take (s.length - after.length) s, after)
      | none => none
    | none => none
  else none

/-- All non-overlapping item blocks (the global item regex), scanning
left to right; fuel-bounded by the string length, which every step
strictly decreases. -/
def collectItemsF : Nat → JStr → List JStr
  | 0, _ => []
  | _ + 1, [] => []
  | fuel + 1, c :: cs =>
    match tryItemAt (c :: cs) with
    | some (m, after) => m :: collectItemsF fuel after
    | none => collectItemsF fuel cs

def collectItems (s : JStr) : List JStr := collectItemsF s.length s

/-- parseRSSFeed of search-rss-grants.ts: up to ten item blocks, each
parsed and filtered through isValidGrant (a per-item parse failure is
caught and skipped). -/
def parseRSSFeed (xmlText : JStr) (feed : Feed) (idTok : Nat → JStr)
    (pubParse : JStr → Option SDate) (now : SDate) : List GrantRec :=
  ((collectItems xmlText).take 10).enum.filterMap (fun p =>
    match parseRSSItem p.2 feed (idTok p.1) pubParse now with
    | some g => if isValidGrant g then some g else none
    | none => none)

/-- The outcome of the bounded fetch call: failure covers both a thrown
network error and the ten-second AbortSignal timeout (which throws). -/
inductive FetchOutcome where
  | failure
  | response (ok : Bool) (body : JStr)
deriving DecidableEq, Repr, Inhabited

/-- fetchFeedData of search-rss-grants.ts: every failure branch (throw
or timeout, non-OK status, empty body, body without any XML marker)
returns the empty list; a sane body is parsed.  The function is total:
it never propagates an exception to its caller. -/
def fetchFeedData (feed : Feed) (o : FetchOutcome) (idTok : Nat → JStr)
    (pubParse : JStr → Option SDate) (now : SDate) : List GrantRec :=
  match o with
  | .failure => []
  | .response ok body =>
    if !ok then []
    else if (trimL body).isEmpty then []
    else if !(containsL (js "<rss") body || containsL (js "<feed") body
              || containsL (js "<?xml") body) then []
    else parseRSSFeed body feed idTok pubParse now

end Rss

/- ===================== functions/api/search-grants.js ===================== -/

namespace SearchJs

/-- calculateMatchPercentage of search-grants.js: base 70, plus 20 when
the query occurs in title-plus-description, capped at 98. -/
def calculateMatchPercentage (title description query : JStr) : Rat :=
  let text := lcStr (title ++ ' ' :: description)
  let score : Rat := if containsL (lcStr query) text then 70 + 20 else 70
  min score 98

/-- getDefaultDeadline of search-grants.js: today plus thirty days plus
the random extra (r embeds the truncated random times 120). -/
def getDefaultDeadline (now : SDate) (r : Nat) : SDate := addDays (30 + r) now

/-- Response shape of searchGrantOpportunities in search-grants.js. -/
structure JsResponse where
  results : List GrantRec
  totalFound : Nat
  apiErrors : List JStr
  fallbackData : Bool
deriving DecidableEq, Repr, Inhabited

/-- generateFallbackResults of search-grants.js: three mock records
(rnd embeds the Math.random draws in call order, nowTok the Date.now id
token). -/
def generateFallbackResults (query : JStr) (now : SDate) (rnd : Nat → Nat) (nowTok : JStr) :
    JsResponse :=
  let g1 : GrantRec :=
    ⟨js "fallback-" ++ nowTok ++ js "-1",
     query ++ js " Federal Grant Program",
     js "Department of Health and Human Services",
     js "Federal funding opportunity for " ++ lcStr query
       ++ js " initiatives with focus on community impact and measurable outcomes.",
     ((rnd 0 % 500000 + 100000 : Nat) : Rat),
     getDefaultDeadline now (rnd 1 % 120),
     js "Federal",
     [js "501(c)(3) status", js "Federal eligibility", js "Detailed evaluation plan"],
     js "grants.gov", js "https://grants.gov",
     ((rnd 2 % 20 + 80 : Nat) : Rat), js "Federal"⟩
  let g2 : GrantRec :=
    ⟨js "fallback-" ++ nowTok ++ js "-2",
     query ++ js " Innovation Fund",
     js "National Science Foundation",
     js "Research funding supporting innovative approaches to " ++ lcStr query ++ js " challenges.",
     ((rnd 3 % 300000 + 75000 : Nat) : Rat),
     getDefaultDeadline now (rnd 4 % 120),
     js "Research",
     [js "Research focus", js "Measurable outcomes", js "Innovation potential"],
     js "nsf.gov", js "https://nsf.gov",
     ((rnd 5 % 25 + 75 : Nat) : Rat), js "Federal"⟩
  let g3 : GrantRec :=
    ⟨js "fallback-" ++ nowTok ++ js "-3",
     js "Community " ++ query ++ js " Initiative",
     js "Department of Housing and Urban Development",
     js "Community development funding for " ++ lcStr query ++ js " projects with local impact.",
     ((rnd 6 % 200000 + 50000 : Nat) : Rat),
     getDefaultDeadline now (rnd 7 % 120),
     js "Community",
     [js "Community partnership", js "Local impact", js "Detailed budget"],
     js "hud.gov", js "https://hud.gov",
     ((rnd 8 % 20 + 80 : Nat) : Rat), js "Federal"⟩
  ⟨[g1, g2, g3], 3, [], true⟩

/-- searchGrantOpportunities of search-grants.js: each adapter call is
raced against a ten-second timer inside its own try/catch, so a failed
or timed-out adapter contributes an empty list and an error note while
the other proceeds; the fallback mocks are generated only when the
combined results are empty.  The adapter outcomes are the values or
thrown errors of the two awaited race expressions. -/
def searchGrantOpportunities (gg usa : Except JStr (List GrantRec))
    (query : JStr) (now : SDate) (rnd : Nat → Nat) (nowTok : JStr) : JsResponse :=
  let ggRecs := match gg with | .ok l => l | .error _ => []
  let errs1 : List JStr := match gg with | .ok _ => [] | .error m => [js "Grants.gov: " ++ m]
  let usaRecs := match usa with | .ok l => l | .error _ => []
  let errs2 : List JStr := match usa with | .ok _ => [] | .error m => [js "USAspending: " ++ m]
  let results := ggRecs ++ usaRecs
  if results.isEmpty then generateFallbackResults query now rnd nowTok
  else ⟨results.take 15, results.length, errs1 ++ errs2, false⟩

end SearchJs

/- ===================== first search worker (unnamed part_000) ===================== -/

namespace P0

/-- Query parameters of the first search worker. -/
structure Params where
  query : JStr
  category : JStr
  minAmount : JStr
  maxAmount : JStr
  location : JStr
  funderType : JStr
deriving DecidableEq, Repr, Inhabited

/-- mapCategoryFromGrant of the first worker: five keyword checks over
the lower-cased title and description, else Other. -/
def mapCategoryFromGrant (title description : JStr) : JStr :=
  let t := lcStr title
  let d := lcStr description
  if containsL (js "health") t || containsL (js "health") d then js "Health"
  else if containsL (js "education") t || containsL (js "education") d then js "Education"
  else if containsL (js "environment") t || containsL (js "environment") d then js "Environment"
  else if containsL (js "research") t || containsL (js "research") d then js "Research"
  else if containsL (js "community") t || containsL (js "community") d then js "Community"
  else js "Other"

/-- calculateMatchPercentage of the first worker: base 70, +20 for a
query hit in the title, +10 in the description, +10 when the mapped
category equals the requested one, capped at 98.  Title and description
are the grant object fields with the empty-string default. -/
def calculateMatchPercentage (title description : JStr) (p : Params) : Rat :=
  let t := lcStr title
  let d := lcStr description
  let q := lcStr p.query
  let score : Rat := 70 + (if containsL q t then 20 else 0) + (if containsL q d then 10 else 0)
    + (if !p.category.isEmpty && mapCategoryFromGrant title description = p.category then 10 else 0)
  min score 98

/-- parseRequirements of the first worker: empty input gives the empty
list; otherwise the keyword hits, defaulting to the single review-
eligibility entry when nothing matched. -/
def parseRequirements (eligibilityDesc : JStr) : List JStr :=
  if eligibilityDesc.isEmpty then []
  else
    let text := lcStr eligibilityDesc
    let requirements :=
      (if containsL (js "501(c)(3)") text then [js "501(c)(3) status"] else [])
      ++ (if containsL (js "nonprofit") text then [js "Nonprofit organization"] else [])
      ++ (if containsL (js "state") text || containsL (js "local") text
          then [js "State/local eligibility"] else [])
      ++ (if containsL (js "university") text || containsL (js "academic") text
          then [js "Academic institution"] else [])
      ++ (if containsL (js "tribal") text then [js "Tribal organization"] else [])
    if requirements.length > 0 then requirements else [js "Review eligibility criteria"]

/-- getDefaultDeadline of the first worker: today plus thirty days plus
the truncated random extra. -/
def getDefaultDeadline (now : SDate) (r : Nat) : SDate := addDays (30 + r) now

/-- One raw USAspending result row (the fields the mapper reads, each
optional as in the JSON). -/
structure USARaw where
  internal_id : JStr
  award_description : Option JStr
  agency_name : Option JStr
  total_obligation : Option Rat
deriving DecidableEq, Repr, Inhabited

/-- The normalization mapper of searchUSASpending in the first worker
(the successful-response branch; the surrounding try/catch returns []
on any failure).  The grant object handed to calculateMatchPercentage
is the raw row, whose title and description fields are absent, hence
empty. -/
def searchUSASpending (p : Params) (raws : List USARaw) (now : SDate) (rnd : Nat → Nat) :
    List GrantRec :=
  raws.enum.map (fun pr =>
    let grant := pr.2
    ⟨js "usaspending-" ++ grant.internal_id,
     grant.award_description.getD (p.query ++ js " Grant Program"),
     grant.agency_name.getD (js "Federal Agency"),
     grant.award_description.getD (js "Federal grant for " ++ lcStr p.query),
     |((grant.total_obligation.getD 0))|,
     getDefaultDeadline now (rnd pr.1 % 120),
     (if !p.category.isEmpty then p.category else js "Federal"),
     [js "Federal eligibility", js "Proper registration", js "Compliance requirements"],
     js "usaspending.gov",
     js "https://usaspending.gov/award/" ++ grant.internal_id,
     calculateMatchPercentage [] [] p,
     js "Federal"⟩)

end P0

/- ===================== functions/save-grants.ts.ts ===================== -/

namespace SaveG

/-- A JavaScript value in an id position: tracked-grant ids may be
strings or numbers, and parseInt may produce NaN. -/
inductive JSVal where
  | str (s : JStr)
  | num (q : Rat)
  | nan
deriving DecidableEq, Repr, Inhabited

/-- JavaScript strict equality on id values: values of different types
are never equal, and NaN equals nothing (including itself). -/
def strictEq : JSVal → JSVal → Bool
  | .str a, .str b => a = b
  | .num a, .num b => a = b
  | _, _ => false

/-- A tracked grant as stored by save-grants: its id value plus the
rest of the JSON object, which the handlers never inspect. -/
structure TrackedGrant where
  id : JSVal
  rest : JStr
deriving DecidableEq, Repr, Inhabited

/-- The per-user document: the grants array is stored together with the
userId, timestamp and version stamps. -/
structure StoredDoc where
  grants : List TrackedGrant
  userId : JStr
  timestamp : JStr
  version : JStr
deriving Repr, Inhabited

/-- The KV namespace, as a key-to-document map. -/
def KV : Type := JStr → Option StoredDoc

/-- Two-to-the-31 and two-to-the-32 for the 32-bit wrap. -/
def wrap32 (n : Int) : Int := ((n + 2147483648) % 4294967296) - 2147483648

/-- One step of hashString: hash shifted left five (32-bit), minus
hash, plus the character code, forced back to a 32-bit integer by the
self-AND. -/
def hashStep (h : Int) (c : Char) : Int := wrap32 (wrap32 (h * 32) - h + c.toNat)

/-- Base-36 digit. -/
def digit36 (n : Nat) : Char :=
  if n < 10 then Char.ofNat ('0'.toNat + n) else Char.ofNat ('a'.toNat + (n - 10))

/-- Number.prototype.toString(36) for a natural number. -/
def natToBase36 (n : Nat) : JStr :=
  if _h : n < 36 then [digit36 n]
  else natToBase36 (n / 36) ++ [digit36 (n % 36)]
termination_by n
decreasing_by exact Nat.div_lt_self (by omega) (by omega)

/-- hashString of save-grants.ts.ts: the 32-bit rolling hash of the
string, absolute value, in base 36. -/
def hashString (s : JStr) : JStr := natToBase36 (Int.natAbs (s.foldl hashStep 0))

/-- The pseudo-identity derived from the request signals. -/
def deriveUserId (userAgent ip : JStr) : JStr :=
  js "user_" ++ hashString (userAgent ++ ip)

/-- The parsed POST body of saveGrants: none embeds a grants field that
is missing or not an array; the empty userId embeds a falsy one. -/
structure SaveBody where
  grants : Option (List TrackedGrant)
  userId : JStr
deriving Repr, Inhabited

/-- Outcome of saveGrants: the updated store and the response fields. -/
structure SaveResult where
  store : KV
  status : Nat
  success : Bool
  userId : JStr
  grantCount : Nat

/-- saveGrants of save-grants.ts.ts: reject a missing grants array with
400; otherwise store the whole document (overwriting any previous one)
under the grants key of the derived or supplied user id. -/
def saveGrants (store : KV) (userAgent ip : JStr) (body : SaveBody) (nowIso : JStr) :
    SaveResult :=
  match body.grants with
  | none => ⟨store, 400, false, [], 0⟩
  | some gs =>
    let userId := if body.userId.isEmpty then deriveUserId userAgent ip else body.userId
    let doc : StoredDoc := ⟨gs, userId, nowIso, js "1.0"⟩
    let key := js "grants:" ++ userId
    ⟨fun k => if k = key then some doc else store k, 200, true, userId, gs.length⟩

/-- Outcome of loadGrants: the response fields (found distinguishes the
no-saved-grants message body). -/
structure LoadResult where
  grants : List TrackedGrant
  userId : JStr
  found : Bool

/-- loadGrants of save-grants.ts.ts: derive the user id when the query
parameter is absent, read the document, and return its grants array
(empty when no document exists). -/
def loadGrants (store : KV) (userAgent ip : JStr) (userIdParam : JStr) : LoadResult :=
  let userId := if userIdParam.isEmpty then deriveUserId userAgent ip else userIdParam
  match store (js "grants:" ++ userId) with
  | none => ⟨[], userId, false⟩
  | some doc => ⟨doc.grants, doc.userId, true⟩

/-- Outcome of deleteGrants: the updated store and response fields. -/
structure DeleteResult where
  store : KV
  status : Nat
  success : Bool

/-- deleteGrants of save-grants.ts.ts: with a grantId, filter the
stored grants keeping those whose id is strictly unequal to the
parseInt of the grantId parameter (a string id never strictly equals a
number, so such entries always survive); without a grantId, delete the
whole document.  Either way the response is success. -/
def deleteGrants (store : KV) (userIdParam grantIdParam : JStr) (nowIso : JStr) :
    DeleteResult :=
  if userIdParam.isEmpty then ⟨store, 400, false⟩
  else
    let key := js "grants:" ++ userIdParam
    if !grantIdParam.isEmpty then
      match store key with
      | some doc =>
        let pid : JSVal := match parseIntJS grantIdParam with
                           | some n => .num (n : Rat)
                           | none => .nan
        let updatedGrants := doc.grants.filter (fun g => !strictEq g.id pid)
        let doc2 : StoredDoc := ⟨updatedGrants, doc.userId, nowIso, doc.version⟩
        ⟨fun k => if k = key then some doc2 else store k, 200, true⟩
      | none => ⟨store, 200, true⟩
    else ⟨fun k => if k = key then none else store k, 200, true⟩

end SaveG

/- ===================== verification-side definitions ===================== -/

/-- The data-model invariants of section 3 of the specification, stated
over the embedded record (requirements being a Lean list is non-null by
construction). -/
def grantInvariant (g : GrantRec) : Prop :=
  0 ≤ g.amount ∧ 0 ≤ g.matchPercentage ∧ g.matchPercentage ≤ 100
    ∧ g.category ∈ taxonomy ∧ validDate g.deadline

instance (g : GrantRec) : Decidable (grantInvariant g) := by
  unfold grantInvariant; infer_instance

namespace Enhanced

/-- The keys of the dedup association list. -/
def keysOf (acc : List (JStr × GrantRec)) : List JStr := acc.map Prod.fst

/-- Well-formedness of the dedup state: every slot is keyed by the
similarity key of the record it holds. -/
def Wf (acc : List (JStr × GrantRec)) : Prop := ∀ e ∈ acc, simKey e.2 = e.1

/-- The best-so-far record with key k: the specification-side fold that
keeps the earliest record of maximal matchPercentage among those with
similarity key k. -/
def bestSoFar (k : JStr) (o : Option GrantRec) (xs : List GrantRec) : Option GrantRec :=
  xs.foldl (fun acc r =>
    if simKey r = k then
      match acc with
      | none => some r
      | some b => if b.matchPercentage < r.matchPercentage then some r else some b
    else acc) o

end Enhanced

/- ===================== theorems ===================== -/

/-- Claim C3: a successful POST save of a grants array followed by a GET
load for the same derived user id (same User-Agent and IP identity
signals, no intervening writes) returns a grants array equal to the one
saved; the save overwrites the user's whole document (last writer wins)
and the load reads back exactly the stored grants. -/
theorem save_load_roundtrip (store : SaveG.KV) (ua ip nowIso : JStr)
    (X : List SaveG.TrackedGrant) :
    (SaveG.saveGrants store ua ip ⟨some X, []⟩ nowIso).success = true ∧
    (SaveG.saveGrants store ua ip ⟨some X, []⟩ nowIso).grantCount = X.length ∧
    (SaveG.saveGrants store ua ip ⟨some X, []⟩ nowIso).store
        (js "grants:" ++ SaveG.deriveUserId ua ip)
      = some ⟨X, SaveG.deriveUserId ua ip, nowIso, js "1.0"⟩ ∧
    (SaveG.loadGrants (SaveG.saveGrants store ua ip ⟨some X, []⟩ nowIso).store ua ip []).grants
      = X := by
  refine ⟨rfl, rfl, ?_, ?_⟩ <;> simp [SaveG.saveGrants, SaveG.loadGrants]

/-- Claim C10: when every stored grant id is a string (the shape every
adapter mints), a DELETE request carrying both userId and grantId
responds success while leaving the stored grants array unchanged: the
removal filter compares each string id strictly against the parseInt
number, and the strict comparison never holds across types. -/
theorem delete_by_id_is_noop (store : SaveG.KV) (userId grantId nowIso : JStr)
    (doc : SaveG.StoredDoc)
    (huid : userId ≠ []) (hgid : grantId ≠ [])
    (hstore : store (js "grants:" ++ userId) = some doc)
    (hids : ∀ g ∈ doc.grants, ∃ s, g.id = SaveG.JSVal.str s) :
    (SaveG.deleteGrants store userId grantId nowIso).success = true ∧
    (SaveG.deleteGrants store userId grantId nowIso).status = 200 ∧
    ∃ doc2,
      (SaveG.deleteGrants store userId grantId nowIso).store (js "grants:" ++ userId)
        = some doc2
      ∧ doc2.grants = doc.grants := by
  have h1 : userId.isEmpty = false := by cases userId with
    | nil => exact absurd rfl huid
    | cons c cs => rfl
  have h2 : grantId.isEmpty = false := by cases grantId with
    | nil => exact absurd rfl hgid
    | cons c cs => rfl
  have hfilter :
      doc.grants.filter
        (fun g => !SaveG.strictEq g.id
          (match parseIntJS grantId with
           | some n => SaveG.JSVal.num (n : Rat)
           | none => SaveG.JSVal.nan)) = doc.grants := by
    rw [List.filter_eq_self]
    intro g hg
    obtain ⟨s, hs⟩ := hids g hg
    rw [hs]
    cases parseIntJS grantId <;> simp [SaveG.strictEq]
  refine ⟨?_, ?_, ⟨doc.grants, doc.userId, nowIso, doc.version⟩, ?_, rfl⟩ <;>
    simp [SaveG.deleteGrants, h1, h2, hstore, hfilter]

/-- Witness for the C10 theorem: a concrete store holding one tracked
grant with an adapter-minted string id survives a DELETE for grantId 17
unchanged, with a success response. -/
theorem delete_by_id_is_noop_witness :
    (SaveG.deleteGrants
        (fun k => if k = js "grants:user_abc"
          then some ⟨[⟨SaveG.JSVal.str (js "rss-nsf-17-x"), js "rest"⟩],
                     js "user_abc", js "t0", js "1.0"⟩
          else none)
        (js "user_abc") (js "17") (js "t1")).success = true ∧
    (SaveG.deleteGrants
        (fun k => if k = js "grants:user_abc"
          then some ⟨[⟨SaveG.JSVal.str (js "rss-nsf-17-x"), js "rest"⟩],
                     js "user_abc", js "t0", js "1.0"⟩
          else none)
        (js "user_abc") (js "17") (js "t1")).status = 200 ∧
    ∃ doc2,
      (SaveG.deleteGrants
          (fun k => if k = js "grants:user_abc"
            then some ⟨[⟨SaveG.JSVal.str (js "rss-nsf-17-x"), js "rest"⟩],
                       js "user_abc", js "t0", js "1.0"⟩
            else none)
          (js "user_abc") (js "17") (js "t1")).store (js "grants:" ++ js "user_abc")
        = some doc2
      ∧ doc2.grants = [⟨SaveG.JSVal.str (js "rss-nsf-17-x"), js "rest"⟩] := by
  exact delete_by_id_is_noop _ (js "user_abc") (js "17") (js "t1")
    ⟨[⟨SaveG.JSVal.str (js "rss-nsf-17-x"), js "rest"⟩], js "user_abc", js "t0", js "1.0"⟩
    (by decide) (by decide)
    (by
      rw [show js "grants:" ++ js "user_abc" = js "grants:user_abc" from by decide]
      simp)
    (by
      intro g hg
      rw [List.mem_singleton] at hg
      subst hg
      exact ⟨_, rfl⟩)

/-- Helper: a length-guarded list with a singleton default is never
empty. -/
theorem ite_length_default_ne_nil (R : List JStr) (d : JStr) :
    (if R.length > 0 then R else [d]) ≠ [] := by
  by_cases h : R.length > 0
  · rw [if_pos h]
    exact List.length_pos.mp h
  · rw [if_neg h]
    simp

/-- Claim C9 is corrected: its statement fails on extractRequirements of
search-grants.ts, which appends no default entry.  The input xyzq is
non-empty, yet the returned requirements list is empty. -/
theorem requirements_default_counterexample :
    SearchBasic.extractRequirements (js "xyzq") = [] ∧ js "xyzq" ≠ [] := by
  exact ⟨rfl, by decide⟩

/-- Claim C9, amended: parseRequirements of the first worker does return
a non-empty list on every non-empty input (the review-eligibility
default when no keyword matches); but extractRequirements of
search-grants.ts has no such default and returns the empty list
whenever none of its fixed substring checks match. -/
theorem requirements_default_amended :
    (∀ t : JStr, t ≠ [] → P0.parseRequirements t ≠ []) ∧
    (∀ t : JStr,
      (containsL (js "501(c)(3)") t || containsL (js "nonprofit") t) = false →
      (containsL (js "proposal") t || containsL (js "application") t) = false →
      containsL (js "budget") t = false →
      (containsL (js "evaluation") t || containsL (js "outcome") t) = false →
      SearchBasic.extractRequirements t = []) := by
  constructor
  · intro t ht
    have h1 : t.isEmpty = false := by cases t with
      | nil => exact absurd rfl ht
      | cons c cs => rfl
    unfold P0.parseRequirements
    rw [h1]
    simp only [Bool.false_eq_true, if_false]
    exact ite_length_default_ne_nil _ _
  · intro t h1 h2 h3 h4
    unfold SearchBasic.extractRequirements
    rw [h1, h2, h3, h4]
    rfl

/-- Witness for the amended C9 theorem at the concrete non-matching
input xyzq. -/
theorem requirements_default_amended_witness :
    P0.parseRequirements (js "xyzq") ≠ [] ∧
    SearchBasic.extractRequirements (js "xyzq") = [] :=
  ⟨requirements_default_amended.1 (js "xyzq") (by decide),
   requirements_default_amended.2 (js "xyzq") (by decide) (by decide) (by decide) (by decide)⟩

/-- Helper: a list of characters that are all outside the digit-or-
comma class has an empty digit-or-comma prefix. -/
theorem takeWhile_digComma_nil (l : JStr) (h : ∀ c ∈ l, isDigComma c = false) :
    l.takeWhile isDigComma = [] := by
  cases l with
  | nil => rfl
  | cons c cs => simp [List.takeWhile_cons, h c (by simp)]

/-- Helper: the basic amount regex never matches a text without digit
or comma characters. -/
theorem scanAmount_no_digits (t : JStr) (h : ∀ c ∈ t, isDigComma c = false) :
    SearchBasic.scanAmount t = none := by
  induction t with
  | nil => rfl
  | cons c cs ih =>
    have hcs : ∀ x ∈ cs, isDigComma x = false := fun x hx => h x (List.mem_cons_of_mem _ hx)
    have hc : isDigComma c = false := h c (List.mem_cons_self _ _)
    have hcap : SearchBasic.capDigits cs = none := by
      simp [SearchBasic.capDigits, takeWhile_digComma_nil cs hcs]
    unfold SearchBasic.scanAmount
    by_cases hd : c = '$'
    · rw [if_pos hd, hcap]
      exact ih hcs
    · rw [if_neg hd]
      simp only [hc, Bool.false_eq_true, if_false]
      exact ih hcs

/-- Helper: the first RSS amount pattern never matches a text without
digit or comma characters. -/
theorem scanPat1_no_digits (t : JStr) (h : ∀ c ∈ t, isDigComma c = false) :
    Rss.scanPat1 t = none := by
  induction t with
  | nil => rfl
  | cons c cs ih =>
    have hcs : ∀ x ∈ cs, isDigComma x = false := fun x hx => h x (List.mem_cons_of_mem _ hx)
    have htry : Rss.tryPat1At (c :: cs) = none := by
      by_cases hd : c = '$'
      · subst hd
        simp [Rss.tryPat1At, takeWhile_digComma_nil cs hcs]
      · simp [Rss.tryPat1At, hd]
    unfold Rss.scanPat1
    rw [htry]
    exact ih hcs

/-- Helper: the second RSS amount pattern never matches a text without
digit or comma characters. -/
theorem scanPat2_no_digits (t : JStr) (h : ∀ c ∈ t, isDigComma c = false) :
    Rss.scanPat2 t = none := by
  induction t with
  | nil => rfl
  | cons c cs ih =>
    have hcs : ∀ x ∈ cs, isDigComma x = false := fun x hx => h x (List.mem_cons_of_mem _ hx)
    have htry : Rss.tryPat2At (c :: cs) = none := by
      by_cases hd : c = '$'
      · subst hd
        simp [Rss.tryPat2At, Rss.capAmt, takeWhile_digComma_nil cs hcs]
      · simp [Rss.tryPat2At, hd]
    unfold Rss.scanPat2
    rw [htry]
    exact ih hcs

/-- Helper: the third RSS amount pattern never matches a text without
digit or comma characters. -/
theorem scanPat3_no_digits (t : JStr) (h : ∀ c ∈ t, isDigComma c = false) :
    Rss.scanPat3 t = none := by
  induction t with
  | nil => rfl
  | cons c cs ih =>
    have hcs : ∀ x ∈ cs, isDigComma x = false := fun x hx => h x (List.mem_cons_of_mem _ hx)
    have htry : Rss.tryPat3At (c :: cs) = none := by
      simp [Rss.tryPat3At, takeWhile_digComma_nil (c :: cs) h]
    unfold Rss.scanPat3
    rw [htry]
    exact ih hcs

/-- Helper: the RSS extractAmount applies the million multiplier on the
two-dollars-million input. -/
theorem rss_extractAmount_two_million :
    Rss.extractAmount (js "$2 million") = 2000000 := by
  have hpat : Rss.patAmount (Rss.scanPat1 (js "$2 million")) true
      = if (0 : ℚ) < ((2 : Nat) : ℚ) * 1000000
        then some (((2 : Nat) : ℚ) * 1000000) else none := rfl
  have hpos : (0 : ℚ) < ((2 : Nat) : ℚ) * 1000000 := by push_cast; norm_num
  unfold Rss.extractAmount
  rw [hpat, if_pos hpos]
  show ((2 : Nat) : ℚ) * 1000000 = 2000000
  push_cast
  norm_num

/-- Claim C6 is corrected: on the input two-dollars-million, the RSS
extractAmount applies the million multiplier as the claim describes,
but extractAmount of search-grants.ts (also cited by the claim) has no
million handling and returns 2, not 2000000. -/
theorem amount_million_counterexample :
    SearchBasic.extractAmount (js "$2 million") = some 2 ∧
    some (2 : Int) ≠ some (2000000 : Int) ∧
    Rss.extractAmount (js "$2 million") = 2000000 := by
  refine ⟨rfl, by decide, rss_extractAmount_two_million⟩

/-- Claim C6, amended: extractAmount of search-rss-grants.ts scans for
the dollar-digits and digits-dollars patterns, strips commas, applies
the million multiplier, and returns 0 when no pattern yields a positive
amount; both examples of the claim hold for both cited functions, and
texts without digit or comma characters always yield 0; but
extractAmount of search-grants.ts also matches bare digit runs (its
dollar sign is optional) and ignores million suffixes. -/
theorem amount_extraction_amended :
    Rss.extractAmount (js "$1,500,000 for research") = 1500000 ∧
    SearchBasic.extractAmount (js "$1,500,000 for research") = some 1500000 ∧
    Rss.extractAmount (js "no dollar amount here") = 0 ∧
    SearchBasic.extractAmount (js "no dollar amount here") = some 0 ∧
    Rss.extractAmount (js "$2 million") = 2000000 ∧
    Rss.extractAmount (js "500000 dollars") = 500000 ∧
    SearchBasic.extractAmount (js "$2 million") = some 2 ∧
    SearchBasic.extractAmount (js "version 7 update") = some 7 ∧
    (∀ t : JStr, (∀ c ∈ t, isDigComma c = false) →
      Rss.extractAmount t = 0 ∧ SearchBasic.extractAmount t = some 0) := by
  refine ⟨by decide, rfl, by decide, rfl, rss_extractAmount_two_million, by decide, rfl, rfl, ?_⟩
  intro t h
  constructor
  · unfold Rss.extractAmount
    rw [scanPat1_no_digits t h, scanPat2_no_digits t h, scanPat3_no_digits t h]
    rfl
  · unfold SearchBasic.extractAmount
    rw [scanAmount_no_digits t h]

/-- Witness for the amended C6 theorem: the universally quantified
no-digits clause at a concrete digit-free text. -/
theorem amount_extraction_amended_witness :
    Rss.extractAmount (js "no digits at all") = 0 ∧
    SearchBasic.extractAmount (js "no digits at all") = some 0 :=
  amount_extraction_amended.2.2.2.2.2.2.2.2 (js "no digits at all") (by decide)

/-- Claim C7 is corrected: extractCategory of search-grants.ts (cited
by the claim) checks education before health, so a text containing a
keyword of both yields Education, not the Health the claimed
Health-first table order would produce. -/
theorem category_order_counterexample :
    SearchBasic.extractCategory (js "health education") [] = js "Education" ∧
    containsL (js "health") (lcStr (js "health education")) = true ∧
    js "Education" ≠ js "Health" := by
  refine ⟨by decide, by decide, by decide⟩

/-- Claim C7, amended: both extractCategory variants return the first
keyword-table match in declaration order (and are deterministic, being
pure functions of the text); the table of search-rss-grants.ts is
ordered Health, Education, Environment, Technology, Community, Arts,
while the table of search-grants.ts is ordered education, health,
environment, arts, community (with a non-empty preferred category
passed through unchanged); the health-clinics example holds for both. -/
theorem category_table_amended :
    (∀ t : JStr, containsL (js "health") (lcStr t) = true →
      Rss.extractCategory t = js "Health") ∧
    (∀ t : JStr, containsL (js "education") (lcStr t) = true →
      SearchBasic.extractCategory t [] = js "Education") ∧
    (∀ t p : JStr, p ≠ [] → SearchBasic.extractCategory t p = p) ∧
    Rss.extractCategory (js "funding for health clinics") = js "Health" ∧
    SearchBasic.extractCategory (js "funding for health clinics") [] = js "Health" := by
  refine ⟨?_, ?_, ?_, by decide, by decide⟩
  · intro t h
    unfold Rss.extractCategory Rss.categories
    dsimp only
    rw [List.find?_cons_of_pos _ (by simp [List.any_cons, h])]
  · intro t h
    unfold SearchBasic.extractCategory SearchBasic.categories
    simp only [List.isEmpty_nil, Bool.not_true, Bool.false_eq_true, if_false]
    rw [List.find?_cons_of_pos _ (by simp [List.any_cons, h])]
    decide
  · intro t p hp
    have h1 : p.isEmpty = false := by cases p with
      | nil => exact absurd rfl hp
      | cons c cs => rfl
    simp [SearchBasic.extractCategory, h1]

/-- Helper: a successful basic cache write returns exactly the gated
response, and only when its results list is non-empty. -/
theorem cacheWrite_some (r w : SearchBasic.BasicResponse)
    (h : SearchBasic.cacheWrite r = some w) : w = r ∧ r.results ≠ [] := by
  unfold SearchBasic.cacheWrite at h
  split at h
  · next hl => exact ⟨(Option.some_inj.mp h).symm, List.length_pos.mp hl⟩
  · exact absurd h (by simp)

/-- Claim C1 is corrected: the enhanced handler (also cited by the
claim) caches unconditionally, so the response computed from an
all-sources-empty search, whose results list is empty, is written to
the cache. -/
theorem cache_write_counterexample :
    Enhanced.handlerCacheWrite
        (.ok (Enhanced.performEnhancedSearch
          ⟨js "health", [], [], [], [], [], js "true", js "false"⟩ [] [] [] 0 (js "t")))
      = some (Enhanced.performEnhancedSearch
          ⟨js "health", [], [], [], [], [], js "true", js "false"⟩ [] [] [] 0 (js "t")) ∧
    (Enhanced.performEnhancedSearch
        ⟨js "health", [], [], [], [], [], js "true", js "false"⟩ [] [] [] 0 (js "t")).results
      = [] := by
  refine ⟨rfl, ?_⟩
  unfold Enhanced.performEnhancedSearch
  simp [Enhanced.deduplicateAndFilter, Enhanced.dedupPass]

/-- Claim C1, amended: the basic search handler (search-grants.ts)
gates its cache writes, so every response it writes has the error flag
absent and a non-empty results list — in particular the all-APIs-down
and all-feeds-down error objects (whose results are empty) are never
cached there; the enhanced handler, however, writes every computed
response unconditionally, including empty-results ones, and skips the
write only on its exception path. -/
theorem cache_write_gating_amended :
    (∀ (threw hasGG hasFD : Bool) (w : SearchBasic.BasicResponse),
      SearchBasic.cacheWrite (SearchBasic.searchGrantOpportunities threw hasGG hasFD) = some w →
        w.error = false ∧ w.results ≠ []) ∧
    (∀ (threw : Bool) (feedRecs : List (List GrantRec)) (w : SearchBasic.BasicResponse),
      SearchBasic.cacheWrite (SearchBasic.searchRSSFeeds threw feedRecs) = some w →
        w.error = false ∧ w.results ≠ []) ∧
    (∀ (p : Enhanced.SearchParams) (rss api cached : List GrantRec) (nowMs : Int)
        (nowIso : JStr),
      Enhanced.handlerCacheWrite
          (.ok (Enhanced.performEnhancedSearch p rss api cached nowMs nowIso))
        = some (Enhanced.performEnhancedSearch p rss api cached nowMs nowIso)) ∧
    (∀ e : JStr, Enhanced.handlerCacheWrite (.error e) = none) := by
  refine ⟨?_, ?_, fun _ _ _ _ _ _ => rfl, fun _ => rfl⟩
  · intro threw hGG hFD w hw
    obtain ⟨hwr, hne⟩ := cacheWrite_some _ _ hw
    subst hwr
    cases threw with
    | true =>
      simp [SearchBasic.searchGrantOpportunities] at hne
    | false => exact ⟨rfl, hne⟩
  · intro threw feedRecs w hw
    obtain ⟨hwr, hne⟩ := cacheWrite_some _ _ hw
    subst hwr
    cases threw with
    | true =>
      simp [SearchBasic.searchRSSFeeds] at hne
    | false => exact ⟨rfl, hne⟩

/-- Witness for the amended C1 theorem: a concrete successful RSS-path
response with one record passes the gate with no error flag and
non-empty results. -/
theorem cache_write_gating_amended_witness :
    (SearchBasic.searchRSSFeeds false
        [[⟨js "id1", js "title one", js "funder", js "desc", 0, ⟨2026, 1, 1⟩, js "General",
           [], js "rss", js "u", 80, js "Federal"⟩]]).error = false ∧
    (SearchBasic.searchRSSFeeds false
        [[⟨js "id1", js "title one", js "funder", js "desc", 0, ⟨2026, 1, 1⟩, js "General",
           [], js "rss", js "u", 80, js "Federal"⟩]]).results ≠ [] :=
  cache_write_gating_amended.2.1 false
    [[⟨js "id1", js "title one", js "funder", js "desc", 0, ⟨2026, 1, 1⟩, js "General",
       [], js "rss", js "u", 80, js "Federal"⟩]] _ rfl

/-- Claim C2: the RSS adapter fetch returns (never throws) the empty
list on every failure mode — thrown network error or timeout, non-OK
HTTP status, empty body, non-XML body — and in the aggregator of
search-grants.js each adapter call is isolated in its own try/catch
with a ten-second race, so one adapter failing or timing out leaves the
other adapter's records in the aggregate (with the failure recorded in
the diagnostics list). -/
theorem adapter_failure_isolation :
    (∀ (feed : Rss.Feed) (idTok : Nat → JStr) (pubParse : JStr → Option SDate) (now : SDate),
      Rss.fetchFeedData feed .failure idTok pubParse now = []) ∧
    (∀ (feed : Rss.Feed) (body : JStr) (idTok : Nat → JStr) (pubParse : JStr → Option SDate)
        (now : SDate),
      Rss.fetchFeedData feed (.response false body) idTok pubParse now = []) ∧
    (∀ (feed : Rss.Feed) (body : JStr) (idTok : Nat → JStr) (pubParse : JStr → Option SDate)
        (now : SDate), trimL body = [] →
      Rss.fetchFeedData feed (.response true body) idTok pubParse now = []) ∧
    (∀ (feed : Rss.Feed) (body : JStr) (idTok : Nat → JStr) (pubParse : JStr → Option SDate)
        (now : SDate),
      containsL (js "<rss") body = false → containsL (js "<feed") body = false →
      containsL (js "<?xml") body = false →
      Rss.fetchFeedData feed (.response true body) idTok pubParse now = []) ∧
    (∀ (s : JStr) (l : List GrantRec) (query : JStr) (now : SDate) (rnd : Nat → Nat)
        (nowTok : JStr), l ≠ [] →
      (SearchJs.searchGrantOpportunities (.error s) (.ok l) query now rnd nowTok).results
          = l.take 15 ∧
      (SearchJs.searchGrantOpportunities (.ok l) (.error s) query now rnd nowTok).results
          = l.take 15 ∧
      (SearchJs.searchGrantOpportunities (.error s) (.ok l) query now rnd nowTok).apiErrors
          = [js "Grants.gov: " ++ s]) := by
  refine ⟨fun _ _ _ _ => rfl, fun _ _ _ _ _ => rfl, ?_, ?_, ?_⟩
  · intro feed body idTok pubParse now h
    simp [Rss.fetchFeedData, h]
  · intro feed body idTok pubParse now h1 h2 h3
    unfold Rss.fetchFeedData
    by_cases ht : (trimL body).isEmpty
    · simp [ht]
    · simp [ht, h1, h2, h3]
  · intro s l query now rnd nowTok hl
    have h1 : l.isEmpty = false := by cases l with
      | nil => exact absurd rfl hl
      | cons c cs => rfl
    refine ⟨?_, ?_, ?_⟩ <;> simp [SearchJs.searchGrantOpportunities, h1]

/-- Witness for the C2 theorem: the whitespace-body failure mode and a
one-failed-one-successful aggregate at concrete inputs. -/
theorem adapter_failure_isolation_witness :
    Rss.fetchFeedData ⟨js "u", js "NSF", js "federal", true⟩ (.response true (js "  "))
        (fun _ => js "i") (fun _ => none) ⟨2026, 1, 1⟩ = [] ∧
    (SearchJs.searchGrantOpportunities (.error (js "Timeout"))
        (.ok [⟨js "id1", js "t", js "f", js "d", 0, ⟨2026, 1, 1⟩, js "General", [], js "s",
              js "u", 80, js "Federal"⟩])
        (js "q") ⟨2026, 1, 1⟩ (fun _ => 0) (js "n")).results
      = [⟨js "id1", js "t", js "f", js "d", 0, ⟨2026, 1, 1⟩, js "General", [], js "s",
          js "u", 80, js "Federal"⟩] :=
  ⟨adapter_failure_isolation.2.2.1 ⟨js "u", js "NSF", js "federal", true⟩ (js "  ")
      (fun _ => js "i") (fun _ => none) ⟨2026, 1, 1⟩ (by decide),
   (adapter_failure_isolation.2.2.2.2 (js "Timeout")
      [⟨js "id1", js "t", js "f", js "d", 0, ⟨2026, 1, 1⟩, js "General", [], js "s",
        js "u", 80, js "Federal"⟩]
      (js "q") ⟨2026, 1, 1⟩ (fun _ => 0) (js "n") (by simp)).1⟩

/-- Helper: looking a key up past an appended slot falls through to
that slot exactly when the key is absent before it. -/
theorem lookupA_append (k k2 : JStr) (r : GrantRec) (acc : List (JStr × GrantRec)) :
    Enhanced.lookupA k (acc ++ [(k2, r)]) =
      match Enhanced.lookupA k acc with
      | some g => some g
      | none => if k2 = k then some r else none := by
  induction acc with
  | nil => simp [Enhanced.lookupA]
  | cons e rest ih =>
    obtain ⟨ke, ge⟩ := e
    by_cases hk : ke = k
    · simp [Enhanced.lookupA, hk]
    · simp only [List.cons_append, Enhanced.lookupA, if_neg hk]
      exact ih

/-- Helper: replacing under a key rewrites exactly that key's lookup. -/
theorem lookupA_replaceA_self (k : JStr) (r : GrantRec) (acc : List (JStr × GrantRec)) :
    Enhanced.lookupA k (Enhanced.replaceA k r acc) =
      (Enhanced.lookupA k acc).map (fun _ => r) := by
  induction acc with
  | nil => simp [Enhanced.lookupA, Enhanced.replaceA]
  | cons e rest ih =>
    obtain ⟨ke, ge⟩ := e
    by_cases hk : ke = k
    · simp [Enhanced.lookupA, Enhanced.replaceA, hk]
    · simp only [Enhanced.replaceA, if_neg hk, Enhanced.lookupA]
      exact ih

/-- Helper: replacing under one key leaves other lookups unchanged. -/
theorem lookupA_replaceA_ne (k k2 : JStr) (r : GrantRec) (acc : List (JStr × GrantRec))
    (h : k2 ≠ k) :
    Enhanced.lookupA k (Enhanced.replaceA k2 r acc) = Enhanced.lookupA k acc := by
  induction acc with
  | nil => simp [Enhanced.replaceA]
  | cons e rest ih =>
    obtain ⟨ke, ge⟩ := e
    by_cases hk : ke = k2
    · have hne : ke ≠ k := hk ▸ h
      simp only [Enhanced.replaceA, if_pos hk, Enhanced.lookupA, if_neg hne]
      exact ih
    · simp only [Enhanced.replaceA, if_neg hk, Enhanced.lookupA]
      by_cases hke : ke = k
      · rw [if_pos hke, if_pos hke]
      · rw [if_neg hke, if_neg hke]
        exact ih

/-- Helper: replacement does not change the key sequence. -/
theorem keysOf_replaceA (k : JStr) (r : GrantRec) (acc : List (JStr × GrantRec)) :
    Enhanced.keysOf (Enhanced.replaceA k r acc) = Enhanced.keysOf acc := by
  induction acc with
  | nil => rfl
  | cons e rest ih =>
    obtain ⟨ke, ge⟩ := e
    by_cases hk : ke = k
    · simp only [Enhanced.replaceA, if_pos hk, Enhanced.keysOf, List.map_cons]
      exact congrArg (ke :: ·) ih
    · simp only [Enhanced.replaceA, if_neg hk, Enhanced.keysOf, List.map_cons]
      exact congrArg (ke :: ·) ih

/-- Helper: a lookup misses exactly when the key is not present. -/
theorem lookupA_eq_none_iff (k : JStr) (acc : List (JStr × GrantRec)) :
    Enhanced.lookupA k acc = none ↔ k ∉ Enhanced.keysOf acc := by
  induction acc with
  | nil => simp [Enhanced.lookupA, Enhanced.keysOf]
  | cons e rest ih =>
    obtain ⟨ke, ge⟩ := e
    by_cases hk : ke = k
    · simp [Enhanced.lookupA, Enhanced.keysOf, hk]
    · simp [Enhanced.lookupA, Enhanced.keysOf, hk, ih, Ne.symm hk]

/-- Helper: one dedup iteration either appends the new key or leaves
the key sequence unchanged. -/
theorem keysOf_dedupStep (acc : List (JStr × GrantRec)) (r : GrantRec) :
    Enhanced.keysOf (Enhanced.dedupStep acc r) =
      if Enhanced.lookupA (Enhanced.simKey r) acc = none
      then Enhanced.keysOf acc ++ [Enhanced.simKey r]
      else Enhanced.keysOf acc := by
  unfold Enhanced.dedupStep
  cases hl : Enhanced.lookupA (Enhanced.simKey r) acc with
  | none => simp [Enhanced.keysOf, hl]
  | some ex =>
    simp only [hl]
    split
    · rw [keysOf_replaceA]
      simp [hl]
    · simp [hl]

/-- Helper: replacement preserves well-formedness when the new record
carries the replaced key. -/
theorem wf_replaceA (k : JStr) (r : GrantRec) (acc : List (JStr × GrantRec))
    (hw : Enhanced.Wf acc) (hk : Enhanced.simKey r = k) :
    Enhanced.Wf (Enhanced.replaceA k r acc) := by
  induction acc with
  | nil => intro e he; cases he
  | cons e2 rest ih =>
    obtain ⟨ke, ge⟩ := e2
    have hwrest : Enhanced.Wf rest := fun e he => hw e (List.mem_cons_of_mem _ he)
    intro e he
    by_cases hke : ke = k
    · rw [Enhanced.replaceA, if_pos hke] at he
      rcases List.mem_cons.mp he with h1 | h2
      · subst h1; simpa [hke] using hk
      · exact ih hwrest e h2
    · rw [Enhanced.replaceA, if_neg hke] at he
      rcases List.mem_cons.mp he with h1 | h2
      · subst h1; exact hw _ (List.mem_cons_self _ _)
      · exact ih hwrest e h2

/-- Helper: one dedup iteration preserves well-formedness. -/
theorem wf_dedupStep (acc : List (JStr × GrantRec)) (r : GrantRec)
    (hw : Enhanced.Wf acc) : Enhanced.Wf (Enhanced.dedupStep acc r) := by
  unfold Enhanced.dedupStep
  cases hl : Enhanced.lookupA (Enhanced.simKey r) acc with
  | none =>
    simp only [hl]
    intro e he
    rcases List.mem_append.mp he with h1 | h2
    · exact hw e h1
    · rw [List.mem_singleton] at h2
      subst h2
      rfl
  | some ex =>
    simp only [hl]
    split
    · exact wf_replaceA _ _ _ hw rfl
    · exact hw

/-- Helper: one dedup iteration preserves key distinctness. -/
theorem nodup_dedupStep (acc : List (JStr × GrantRec)) (r : GrantRec)
    (hn : (Enhanced.keysOf acc).Nodup) : (Enhanced.keysOf (Enhanced.dedupStep acc r)).Nodup := by
  rw [keysOf_dedupStep]
  split
  · next hl =>
    rw [List.nodup_append]
    exact ⟨hn, List.nodup_singleton _,
      by simpa [List.disjoint_singleton] using (lookupA_eq_none_iff _ _).mp hl⟩
  · exact hn

/-- Helper: the dedup fold preserves well-formedness and key
distinctness from any starting state. -/
theorem wf_nodup_foldl (xs : List GrantRec) (acc : List (JStr × GrantRec))
    (hw : Enhanced.Wf acc) (hn : (Enhanced.keysOf acc).Nodup) :
    Enhanced.Wf (xs.foldl Enhanced.dedupStep acc)
      ∧ (Enhanced.keysOf (xs.foldl Enhanced.dedupStep acc)).Nodup := by
  induction xs generalizing acc with
  | nil => exact ⟨hw, hn⟩
  | cons x rest ih =>
    exact ih (Enhanced.dedupStep acc x) (wf_dedupStep acc x hw) (nodup_dedupStep acc x hn)

/-- Helper: the dedup pass is well-formed with pairwise-distinct keys. -/
theorem dedupPass_wf (xs : List GrantRec) :
    Enhanced.Wf (Enhanced.dedupPass xs)
      ∧ (Enhanced.keysOf (Enhanced.dedupPass xs)).Nodup :=
  wf_nodup_foldl xs [] (fun e he => absurd he (List.not_mem_nil e)) List.nodup_nil

/-- Helper: under well-formedness the similarity keys of the stored
records are exactly the slot keys. -/
theorem map_simKey_snd (acc : List (JStr × GrantRec)) (hw : Enhanced.Wf acc) :
    (acc.map Prod.snd).map Enhanced.simKey = Enhanced.keysOf acc := by
  induction acc with
  | nil => rfl
  | cons e rest ih =>
    obtain ⟨ke, ge⟩ := e
    have hwrest : Enhanced.Wf rest := fun e2 he => hw e2 (List.mem_cons_of_mem _ he)
    simp only [List.map_cons, Enhanced.keysOf]
    rw [show Enhanced.simKey ge = ke from hw _ (List.mem_cons_self _ _)]
    exact congrArg (ke :: ·) (ih hwrest)

/-- Helper: folding records whose keys are fresh and pairwise distinct
just appends them all. -/
theorem foldl_dedupStep_fresh (xs : List GrantRec) (acc : List (JStr × GrantRec))
    (hnd : (xs.map Enhanced.simKey).Nodup)
    (hfresh : ∀ x ∈ xs, Enhanced.lookupA (Enhanced.simKey x) acc = none) :
    xs.foldl Enhanced.dedupStep acc = acc ++ xs.map (fun r => (Enhanced.simKey r, r)) := by
  induction xs generalizing acc with
  | nil => simp
  | cons x rest ih =>
    have hstep : Enhanced.dedupStep acc x = acc ++ [(Enhanced.simKey x, x)] := by
      unfold Enhanced.dedupStep
      rw [hfresh x (List.mem_cons_self _ _)]
    have hnd2 : (rest.map Enhanced.simKey).Nodup := (List.nodup_cons.mp hnd).2
    have hxkey : Enhanced.simKey x ∉ rest.map Enhanced.simKey := (List.nodup_cons.mp hnd).1
    have hfresh2 : ∀ y ∈ rest,
        Enhanced.lookupA (Enhanced.simKey y) (acc ++ [(Enhanced.simKey x, x)]) = none := by
      intro y hy
      rw [lookupA_append, hfresh y (List.mem_cons_of_mem _ hy)]
      rw [if_neg]
      intro hcontra
      exact hxkey (hcontra ▸ List.mem_map_of_mem Enhanced.simKey hy)
    calc (x :: rest).foldl Enhanced.dedupStep acc
        = rest.foldl Enhanced.dedupStep (acc ++ [(Enhanced.simKey x, x)]) := by
          rw [List.foldl_cons, hstep]
      _ = acc ++ [(Enhanced.simKey x, x)] ++ rest.map (fun r => (Enhanced.simKey r, r)) :=
          ih _ hnd2 hfresh2
      _ = acc ++ (x :: rest).map (fun r => (Enhanced.simKey r, r)) := by
          rw [List.append_assoc]
          rfl

/-- Helper: every output record of deduplicateAndFilter passes the
query filter. -/
theorem dedupFilter_mem_pred (xs : List GrantRec) (p : Enhanced.SearchParams) :
    ∀ g ∈ Enhanced.deduplicateAndFilter xs p, Enhanced.grantMatchesQuery g p = true := by
  intro g hg
  exact (List.mem_filter.mp hg).2

/-- Helper: the output of deduplicateAndFilter has pairwise-distinct
similarity keys. -/
theorem dedupFilter_nodup_keys (xs : List GrantRec) (p : Enhanced.SearchParams) :
    ((Enhanced.deduplicateAndFilter xs p).map Enhanced.simKey).Nodup := by
  have h1 : ((Enhanced.dedupPass xs).map Prod.snd).map Enhanced.simKey
      = Enhanced.keysOf (Enhanced.dedupPass xs) := map_simKey_snd _ (dedupPass_wf xs).1
  have h2 : (((Enhanced.dedupPass xs).map Prod.snd).map Enhanced.simKey).Nodup := by
    rw [h1]; exact (dedupPass_wf xs).2
  exact h2.sublist (List.Sublist.map Enhanced.simKey (List.filter_sublist _))

/-- Claim C4: the deduplicator is idempotent — applying
deduplicateAndFilter to its own output with the same query yields the
same list of records. -/
theorem dedup_idempotent (xs : List GrantRec) (p : Enhanced.SearchParams) :
    Enhanced.deduplicateAndFilter (Enhanced.deduplicateAndFilter xs p) p
      = Enhanced.deduplicateAndFilter xs p := by
  have hnd := dedupFilter_nodup_keys xs p
  set ys := Enhanced.deduplicateAndFilter xs p with hys
  have hpass : Enhanced.dedupPass ys = ys.map (fun r => (Enhanced.simKey r, r)) :=
    (foldl_dedupStep_fresh ys [] hnd (fun x _ => rfl)).trans (List.nil_append _)
  show Enhanced.deduplicateAndFilter ys p = ys
  unfold Enhanced.deduplicateAndFilter
  rw [hpass, List.map_map]
  have hmap : ys.map (Prod.snd ∘ fun r => (Enhanced.simKey r, r)) = ys := List.map_id ys
  rw [hmap]
  exact List.filter_eq_self.mpr (fun g hg => dedupFilter_mem_pred xs p g (hys ▸ hg))

/-- Helper: one dedup step transforms the lookup of any key exactly by
the keep-strictly-higher rule on its own similarity key. -/
theorem lookupA_dedupStep (k : JStr) (acc : List (JStr × GrantRec)) (x : GrantRec) :
    Enhanced.lookupA k (Enhanced.dedupStep acc x) =
      if Enhanced.simKey x = k then
        match Enhanced.lookupA k acc with
        | none => some x
        | some b => if b.matchPercentage < x.matchPercentage then some x else some b
      else Enhanced.lookupA k acc := by
  unfold Enhanced.dedupStep
  by_cases hk : Enhanced.simKey x = k
  · subst hk
    cases hl : Enhanced.lookupA (Enhanced.simKey x) acc with
    | none =>
      simp only [hl, if_pos rfl]
      rw [lookupA_append, hl]
      simp
    | some ex =>
      simp only [hl, if_pos rfl]
      split
      · rw [lookupA_replaceA_self, hl]
        rfl
      · exact hl
  · cases hl : Enhanced.lookupA (Enhanced.simKey x) acc with
    | none =>
      simp only [hl, if_neg hk]
      rw [lookupA_append, if_neg hk]
      cases Enhanced.lookupA k acc <;> rfl
    | some ex =>
      simp only [hl, if_neg hk]
      split
      · exact lookupA_replaceA_ne _ _ _ _ hk
      · rfl

/-- Helper: the lookup after the dedup fold is the best-so-far record
of the key over the folded input. -/
theorem lookupA_foldl_bestSoFar (k : JStr) (xs : List GrantRec)
    (acc : List (JStr × GrantRec)) :
    Enhanced.lookupA k (xs.foldl Enhanced.dedupStep acc)
      = Enhanced.bestSoFar k (Enhanced.lookupA k acc) xs := by
  induction xs generalizing acc with
  | nil => rfl
  | cons x rest ih =>
    rw [List.foldl_cons, ih, lookupA_dedupStep k acc x]
    rfl

/-- Helper: the best-so-far fold yields nothing exactly when it started
with nothing and no folded record carries the key. -/
theorem bestSoFar_eq_none_iff (k : JStr) (xs : List GrantRec) (o : Option GrantRec) :
    Enhanced.bestSoFar k o xs = none ↔ o = none ∧ ∀ h ∈ xs, Enhanced.simKey h ≠ k := by
  induction xs generalizing o with
  | nil => simp [Enhanced.bestSoFar]
  | cons x rest ih =>
    rw [show Enhanced.bestSoFar k o (x :: rest)
        = Enhanced.bestSoFar k
            (if Enhanced.simKey x = k then
              match o with
              | none => some x
              | some b =>
                if b.matchPercentage < x.matchPercentage then some x else some b
             else o) rest from rfl]
    rw [ih]
    by_cases hk : Enhanced.simKey x = k
    · rw [if_pos hk]
      constructor
      · rintro ⟨h1, _⟩
        exfalso
        cases o with
        | none => exact Option.noConfusion h1
        | some b =>
          rw [show (match (some b : Option GrantRec) with
              | none => some x
              | some b =>
                if b.matchPercentage < x.matchPercentage then some x else some b)
            = (if b.matchPercentage < x.matchPercentage then some x else some b)
            from rfl] at h1
          split at h1 <;> exact Option.noConfusion h1
      · rintro ⟨_, h2⟩
        exact absurd hk (h2 x (List.mem_cons_self _ _))
    · rw [if_neg hk]
      constructor
      · rintro ⟨h1, h2⟩
        refine ⟨h1, fun h hm => ?_⟩
        rcases List.mem_cons.mp hm with hh | hh
        · subst hh; exact hk
        · exact h2 h hh
      · rintro ⟨h1, h2⟩
        exact ⟨h1, fun h hm => h2 h (List.mem_cons_of_mem _ hm)⟩

/-- Helper: the record the best-so-far fold selects lies in the list,
carries the key, has maximal matchPercentage among the key's records,
and strictly beats every key-sharing record that precedes it. -/
theorem bestSoFar_spec (k : JStr) (xs : List GrantRec) :
    ∀ g, Enhanced.bestSoFar k none xs = some g →
      g ∈ xs ∧ Enhanced.simKey g = k ∧
      (∀ h ∈ xs, Enhanced.simKey h = k → h.matchPercentage ≤ g.matchPercentage) ∧
      ∃ l1 l2, xs = l1 ++ g :: l2 ∧
        ∀ h ∈ l1, Enhanced.simKey h = k → h.matchPercentage < g.matchPercentage := by
  induction xs using List.reverseRecOn with
  | nil => exact fun g h => Option.noConfusion h
  | append_singleton xs r ih =>
    intro g hg
    have happ : Enhanced.bestSoFar k none (xs ++ [r]) =
        (if Enhanced.simKey r = k then
          match Enhanced.bestSoFar k none xs with
          | none => some r
          | some b => if b.matchPercentage < r.matchPercentage then some r else some b
         else Enhanced.bestSoFar k none xs) := by
      unfold Enhanced.bestSoFar
      rw [List.foldl_append]
      rfl
    rw [happ] at hg
    by_cases hk : Enhanced.simKey r = k
    · rw [if_pos hk] at hg
      cases hb : Enhanced.bestSoFar k none xs with
      | none =>
        rw [hb] at hg
        cases hg
        have hnone := ((bestSoFar_eq_none_iff k xs none).mp hb).2
        refine ⟨List.mem_append_right _ (List.mem_singleton_self _), hk, ?_, xs, [],
          rfl, fun h2 hm hkey => absurd hkey (hnone h2 hm)⟩
        intro h2 hm hkey
        rcases List.mem_append.mp hm with hh | hh
        · exact absurd hkey (hnone h2 hh)
        · rw [List.mem_singleton] at hh
          subst hh
          exact le_refl _
      | some b =>
        rw [hb] at hg
        rw [show (match (some b : Option GrantRec) with
            | none => some r
            | some b =>
              if b.matchPercentage < r.matchPercentage then some r else some b)
          = (if b.matchPercentage < r.matchPercentage then some r else some b)
          from rfl] at hg
        obtain ⟨hbmem, hbkey, hbmax, l1, l2, hsplit, hltl⟩ := ih b hb
        by_cases hlt2 : b.matchPercentage < r.matchPercentage
        · rw [if_pos hlt2] at hg
          cases hg
          refine ⟨List.mem_append_right _ (List.mem_singleton_self _), hk, ?_, xs, [],
            rfl, fun h2 hm hkey => lt_of_le_of_lt (hbmax h2 hm hkey) hlt2⟩
          intro h2 hm hkey
          rcases List.mem_append.mp hm with hh | hh
          · exact le_of_lt (lt_of_le_of_lt (hbmax h2 hh hkey) hlt2)
          · rw [List.mem_singleton] at hh
            subst hh
            exact le_refl _
        · rw [if_neg hlt2] at hg
          cases hg
          refine ⟨List.mem_append_left _ hbmem, hbkey, ?_,
            l1, l2 ++ [r], by rw [hsplit]; simp, hltl⟩
          intro h2 hm hkey
          rcases List.mem_append.mp hm with hh | hh
          · exact hbmax h2 hh hkey
          · rw [List.mem_singleton] at hh
            subst hh
            exact le_of_not_lt hlt2
    · rw [if_neg hk] at hg
      obtain ⟨hbmem, hbkey, hbmax, l1, l2, hsplit, hltl⟩ := ih g hg
      refine ⟨List.mem_append_left _ hbmem, hbkey, ?_,
        l1, l2 ++ [r], by rw [hsplit]; simp, hltl⟩
      intro h2 hm hkey
      rcases List.mem_append.mp hm with hh | hh
      · exact hbmax h2 hh hkey
      · rw [List.mem_singleton] at hh
        subst hh
        exact absurd hkey hk

/-- Helper: with distinct keys and well-formed slots, the records with
a looked-up key filter down to exactly the stored record. -/
theorem filter_key_eq_singleton (acc : List (JStr × GrantRec)) (k : JStr) (g : GrantRec)
    (hw : Enhanced.Wf acc) (hn : (Enhanced.keysOf acc).Nodup)
    (hl : Enhanced.lookupA k acc = some g) :
    (acc.map Prod.snd).filter (fun r => decide (Enhanced.simKey r = k)) = [g] := by
  induction acc with
  | nil => exact Option.noConfusion hl
  | cons e rest ih =>
    obtain ⟨ke, ge⟩ := e
    have hwrest : Enhanced.Wf rest := fun e2 he => hw e2 (List.mem_cons_of_mem _ he)
    have hkey : Enhanced.simKey ge = ke := hw _ (List.mem_cons_self _ _)
    have hnrest : (Enhanced.keysOf rest).Nodup := (List.nodup_cons.mp hn).2
    by_cases hk : ke = k
    · subst hk
      rw [Enhanced.lookupA, if_pos rfl] at hl
      cases hl
      have hnotin : ke ∉ Enhanced.keysOf rest := (List.nodup_cons.mp hn).1
      have hall : (rest.map Prod.snd).filter (fun r => decide (Enhanced.simKey r = ke)) = [] := by
        rw [List.filter_eq_nil_iff]
        intro a ha
        obtain ⟨e2, he2, hae⟩ := List.mem_map.mp ha
        simp only [decide_eq_true_eq]
        intro hcontra
        apply hnotin
        have h1 : Enhanced.simKey a = e2.1 := by rw [← hae]; exact hwrest e2 he2
        rw [← hcontra, h1]
        exact List.mem_map_of_mem Prod.fst he2
      simp [List.filter_cons, hkey, hall]
    · rw [Enhanced.lookupA, if_neg hk] at hl
      have hgek : Enhanced.simKey ge ≠ k := hkey ▸ hk
      simp only [List.map_cons, List.filter_cons]
      rw [if_neg (by simpa using hgek)]
      exact ih hwrest hnrest hl

/-- Claim C5 is corrected: after the dedup loop keeps the
highest-scoring record of a duplicated key, deduplicateAndFilter still
applies the query filter, which can drop that winner — here both
records share a similarity key, the loop keeps the higher-scoring one,
but that record does not match the query, so the output contains zero
records with that key rather than exactly one. -/
theorem dedup_keeps_best_counterexample :
    Enhanced.simKey
        ⟨js "b", js "alpha beta gamma delta", js "acme corp", js "nothing here", 0,
         ⟨2026, 1, 1⟩, js "General", [], js "s", js "u", 90, js "Federal"⟩
      = Enhanced.simKey
        ⟨js "a", js "alpha beta gamma delta", js "acme corp", js "has a needle inside", 0,
         ⟨2026, 1, 1⟩, js "General", [], js "s", js "u", 50, js "Federal"⟩ ∧
    (⟨js "a", js "alpha beta gamma delta", js "acme corp", js "has a needle inside", 0,
      ⟨2026, 1, 1⟩, js "General", [], js "s", js "u", 50, js "Federal"⟩ :
        GrantRec).matchPercentage
      < (⟨js "b", js "alpha beta gamma delta", js "acme corp", js "nothing here", 0,
          ⟨2026, 1, 1⟩, js "General", [], js "s", js "u", 90, js "Federal"⟩ :
            GrantRec).matchPercentage ∧
    (Enhanced.deduplicateAndFilter
        [⟨js "a", js "alpha beta gamma delta", js "acme corp", js "has a needle inside", 0,
          ⟨2026, 1, 1⟩, js "General", [], js "s", js "u", 50, js "Federal"⟩,
         ⟨js "b", js "alpha beta gamma delta", js "acme corp", js "nothing here", 0,
          ⟨2026, 1, 1⟩, js "General", [], js "s", js "u", 90, js "Federal"⟩]
        ⟨js "needle", [], [], [], [], [], js "true", js "false"⟩).filter
      (fun r => decide (Enhanced.simKey r
        = Enhanced.simKey
            ⟨js "a", js "alpha beta gamma delta", js "acme corp", js "has a needle inside", 0,
             ⟨2026, 1, 1⟩, js "General", [], js "s", js "u", 50, js "Federal"⟩)) = [] := by
  refine ⟨by decide, by decide, by decide⟩

/-- Claim C5, amended: for every input list and every similarity key
occurring in it, the dedup loop keeps exactly one record with that key
— the earliest among those of strictly highest matchPercentage — and
the final output of deduplicateAndFilter contains that record exactly
when it passes the query filter, and no record with that key otherwise. -/
theorem dedup_keeps_best_earliest (xs : List GrantRec) (p : Enhanced.SearchParams) (k : JStr)
    (hk : k ∈ xs.map Enhanced.simKey) :
    ∃ g, g ∈ xs ∧ Enhanced.simKey g = k ∧
      (∀ h ∈ xs, Enhanced.simKey h = k → h.matchPercentage ≤ g.matchPercentage) ∧
      (∃ l1 l2, xs = l1 ++ g :: l2 ∧
        ∀ h ∈ l1, Enhanced.simKey h = k → h.matchPercentage < g.matchPercentage) ∧
      ((Enhanced.dedupPass xs).map Prod.snd).filter (fun r => decide (Enhanced.simKey r = k))
        = [g] ∧
      (Enhanced.deduplicateAndFilter xs p).filter (fun r => decide (Enhanced.simKey r = k))
        = (if Enhanced.grantMatchesQuery g p then [g] else []) := by
  have hbridge : Enhanced.lookupA k (Enhanced.dedupPass xs) = Enhanced.bestSoFar k none xs :=
    lookupA_foldl_bestSoFar k xs []
  obtain ⟨h0, hmem0, hkey0⟩ := List.mem_map.mp hk
  have hnn : Enhanced.bestSoFar k none xs ≠ none := by
    rw [Ne, bestSoFar_eq_none_iff]
    rintro ⟨-, hall⟩
    exact hall h0 hmem0 hkey0
  obtain ⟨g, hg⟩ := Option.ne_none_iff_exists'.mp hnn
  obtain ⟨hmem, hkey, hmax, l1, l2, hsplit, hlt⟩ := bestSoFar_spec k xs g hg
  have hsing : ((Enhanced.dedupPass xs).map Prod.snd).filter
      (fun r => decide (Enhanced.simKey r = k)) = [g] :=
    filter_key_eq_singleton _ k g (dedupPass_wf xs).1 (dedupPass_wf xs).2 (hbridge.trans hg)
  refine ⟨g, hmem, hkey, hmax, ⟨l1, l2, hsplit, hlt⟩, hsing, ?_⟩
  unfold Enhanced.deduplicateAndFilter
  rw [List.filter_filter]
  have hcomm : (fun a => decide (Enhanced.simKey a = k) && Enhanced.grantMatchesQuery a p)
      = fun a => Enhanced.grantMatchesQuery a p && decide (Enhanced.simKey a = k) := by
    funext a
    exact Bool.and_comm _ _
  rw [hcomm, ← List.filter_filter, hsing]
  cases hpred : Enhanced.grantMatchesQuery g p <;> simp [List.filter_cons, hpred]

/-- Witness for the amended C5 theorem: a concrete singleton input
whose record matches the query, where the dedup output keeps exactly
that record. -/
theorem dedup_keeps_best_earliest_witness :
    ∃ g, g ∈ [(⟨js "a", js "alpha beta", js "acme", js "has a needle", 0, ⟨2026, 1, 1⟩,
          js "General", [], js "s", js "u", 50, js "Federal"⟩ : GrantRec)] ∧
      Enhanced.simKey g
          = Enhanced.simKey
              ⟨js "a", js "alpha beta", js "acme", js "has a needle", 0, ⟨2026, 1, 1⟩,
               js "General", [], js "s", js "u", 50, js "Federal"⟩ ∧
      (∀ h ∈ [(⟨js "a", js "alpha beta", js "acme", js "has a needle", 0, ⟨2026, 1, 1⟩,
            js "General", [], js "s", js "u", 50, js "Federal"⟩ : GrantRec)],
        Enhanced.simKey h
            = Enhanced.simKey
                ⟨js "a", js "alpha beta", js "acme", js "has a needle", 0, ⟨2026, 1, 1⟩,
                 js "General", [], js "s", js "u", 50, js "Federal"⟩ →
          h.matchPercentage ≤ g.matchPercentage) ∧
      (∃ l1 l2,
        [(⟨js "a", js "alpha beta", js "acme", js "has a needle", 0, ⟨2026, 1, 1⟩,
           js "General", [], js "s", js "u", 50, js "Federal"⟩ : GrantRec)] = l1 ++ g :: l2 ∧
        ∀ h ∈ l1,
          Enhanced.simKey h
              = Enhanced.simKey
                  ⟨js "a", js "alpha beta", js "acme", js "has a needle", 0, ⟨2026, 1, 1⟩,
                   js "General", [], js "s", js "u", 50, js "Federal"⟩ →
            h.matchPercentage < g.matchPercentage) ∧
      ((Enhanced.dedupPass
          [⟨js "a", js "alpha beta", js "acme", js "has a needle", 0, ⟨2026, 1, 1⟩,
            js "General", [], js "s", js "u", 50, js "Federal"⟩]).map Prod.snd).filter
        (fun r => decide (Enhanced.simKey r
          = Enhanced.simKey
              ⟨js "a", js "alpha beta", js "acme", js "has a needle", 0, ⟨2026, 1, 1⟩,
               js "General", [], js "s", js "u", 50, js "Federal"⟩)) = [g] ∧
      (Enhanced.deduplicateAndFilter
          [⟨js "a", js "alpha beta", js "acme", js "has a needle", 0, ⟨2026, 1, 1⟩,
            js "General", [], js "s", js "u", 50, js "Federal"⟩]
          ⟨js "needle", [], [], [], [], [], js "true", js "false"⟩).filter
        (fun r => decide (Enhanced.simKey r
          = Enhanced.simKey
              ⟨js "a", js "alpha beta", js "acme", js "has a needle", 0, ⟨2026, 1, 1⟩,
               js "General", [], js "s", js "u", 50, js "Federal"⟩))
        = (if Enhanced.grantMatchesQuery
              ⟨js "a", js "alpha beta", js "acme", js "has a needle", 0, ⟨2026, 1, 1⟩,
               js "General", [], js "s", js "u", 50, js "Federal"⟩
              ⟨js "needle", [], [], [], [], [], js "true", js "false"⟩
           then [⟨js "a", js "alpha beta", js "acme", js "has a needle", 0, ⟨2026, 1, 1⟩,
                  js "General", [], js "s", js "u", 50, js "Federal"⟩] else []) := by
  have h := dedup_keeps_best_earliest
    [⟨js "a", js "alpha beta", js "acme", js "has a needle", 0, ⟨2026, 1, 1⟩,
      js "General", [], js "s", js "u", 50, js "Federal"⟩]
    ⟨js "needle", [], [], [], [], [], js "true", js "false"⟩
    (Enhanced.simKey
      ⟨js "a", js "alpha beta", js "acme", js "has a needle", 0, ⟨2026, 1, 1⟩,
       js "General", [], js "s", js "u", 50, js "Federal"⟩)
    (by decide)
  obtain ⟨g, h1, h2, h3, h4, h5, h6⟩ := h
  rw [List.mem_singleton] at h1
  exact ⟨g, List.mem_singleton.mpr h1, h2, h3, h4, h5, by rw [h6, h1]⟩

/-- Helper: every month has at least one day. -/
theorem daysInMonth_pos (y m : Nat) : 1 ≤ daysInMonth y m := by
  unfold daysInMonth
  split_ifs <;> omega

/-- Helper: the successor day of a valid date is valid. -/
theorem validDate_nextDay (dt : SDate) (h : validDate dt) : validDate (nextDay dt) := by
  obtain ⟨h1, h2, h3, h4⟩ := h
  unfold nextDay validDate
  split_ifs with hd hm <;> dsimp only
  · exact ⟨h1, h2, by omega, by omega⟩
  · exact ⟨by omega, by omega, le_refl 1, daysInMonth_pos _ _⟩
  · exact ⟨le_refl 1, by omega, le_refl 1, daysInMonth_pos _ _⟩

/-- Helper: day addition preserves date validity. -/
theorem validDate_addDays (n : Nat) (dt : SDate) (h : validDate dt) :
    validDate (addDays n dt) := by
  induction n generalizing dt with
  | zero => exact h
  | succ n ih =>
    rw [addDays, Function.iterate_succ_apply]
    exact ih (nextDay dt) (validDate_nextDay dt h)

/-- Helper: every date the M/D/YYYY constructor accepts is valid. -/
theorem validDate_jsParseMDY (m d y : Nat) (dt : SDate) (h : jsParseMDY m d y = some dt) :
    validDate dt := by
  unfold jsParseMDY at h
  split at h
  · next hcond =>
    cases h
    simp only [Bool.and_eq_true, decide_eq_true_eq] at hcond
    exact validDate_addDays _ _ ⟨hcond.1.1.1, hcond.1.1.2, le_refl 1, daysInMonth_pos _ _⟩
  · exact Option.noConfusion h

/-- Helper: every date accepted by the validity-and-futurity check of
extractDeadline is valid. -/
theorem validDate_datePass (o : Option (Nat × Nat × Nat)) (now : SDate) (dt : SDate)
    (h : Rss.datePass o now = some dt) : validDate dt := by
  cases o with
  | none => exact Option.noConfusion h
  | some t =>
    obtain ⟨m, d, y⟩ := t
    rw [show Rss.datePass (some (m, d, y)) now
        = (match jsParseMDY m d y with
           | some dt2 => if dateLt now dt2 = true then some dt2 else none
           | none => none) from rfl] at h
    cases hp : jsParseMDY m d y with
    | none => rw [hp] at h; exact Option.noConfusion h
    | some dt2 =>
      rw [hp] at h
      rw [show (match (some dt2 : Option SDate) with
          | some dt3 => if dateLt now dt3 = true then some dt3 else none
          | none => none)
        = (if dateLt now dt2 = true then some dt2 else none) from rfl] at h
      by_cases hlt : dateLt now dt2 = true
      · rw [if_pos hlt] at h
        exact (Option.some_inj.mp h) ▸ validDate_jsParseMDY m d y dt2 hp
      · rw [if_neg hlt] at h
        exact Option.noConfusion h

/-- Helper: extractDeadline always produces a valid calendar date,
whatever text it scans. -/
theorem validDate_extractDeadline (desc : JStr) (pub : Option SDate) (now : SDate)
    (hnow : validDate now) (hpub : ∀ d, pub = some d → validDate d) :
    validDate (Rss.extractDeadline desc pub now) := by
  unfold Rss.extractDeadline
  cases h1 : Rss.datePass (Rss.scanKwDate (js "deadline") desc) now with
  | some dt => exact validDate_datePass _ _ _ h1
  | none =>
    cases h2 : Rss.datePass (Rss.scanKwDate (js "due") desc) now with
    | some dt => exact validDate_datePass _ _ _ h2
    | none =>
      cases h3 : Rss.datePass (Rss.scanDate desc) now with
      | some dt => exact validDate_datePass _ _ _ h3
      | none =>
        cases hp : pub with
        | some base => exact validDate_addDays 60 base (hpub base hp)
        | none => exact validDate_addDays 60 now hnow

/-- Helper: a pattern hit that survives the positivity guard is
strictly positive. -/
theorem patAmount_pos (o : Option JStr) (m : Bool) (q : Rat)
    (h : Rss.patAmount o m = some q) : 0 < q := by
  cases o with
  | none => exact Option.noConfusion h
  | some cap =>
    rw [show Rss.patAmount (some cap) m
        = (match parseFloatJS (cap.filter (fun c => c != ',')) with
           | some q0 =>
             if 0 < (if m then q0 * 1000000 else q0)
             then some (if m then q0 * 1000000 else q0) else none
           | none => none) from rfl] at h
    cases hf : parseFloatJS (cap.filter (fun c => c != ',')) with
    | none => rw [hf] at h; exact Option.noConfusion h
    | some q0 =>
      rw [hf] at h
      rw [show (match (some q0 : Option Rat) with
          | some q2 =>
            if 0 < (if m then q2 * 1000000 else q2)
            then some (if m then q2 * 1000000 else q2) else none
          | none => none)
        = (if 0 < (if m then q0 * 1000000 else q0)
           then some (if m then q0 * 1000000 else q0) else none) from rfl] at h
      by_cases hpos : 0 < (if m then q0 * 1000000 else q0)
      · rw [if_pos hpos] at h
        exact (Option.some_inj.mp h) ▸ hpos
      · rw [if_neg hpos] at h
        exact Option.noConfusion h

/-- Helper: extractAmount of search-rss-grants.ts never returns a
negative amount. -/
theorem rss_extractAmount_nonneg (t : JStr) : 0 ≤ Rss.extractAmount t := by
  unfold Rss.extractAmount
  cases h1 : Rss.patAmount (Rss.scanPat1 t) true with
  | some q =>
    simp only [h1, Option.orElse, Option.getD]
    exact le_of_lt (patAmount_pos _ _ _ h1)
  | none =>
    cases h2 : Rss.patAmount (Rss.scanPat2 t) false with
    | some q =>
      simp only [h1, h2, Option.orElse, Option.getD]
      exact le_of_lt (patAmount_pos _ _ _ h2)
    | none =>
      cases h3 : Rss.patAmount (Rss.scanPat3 t) false with
      | some q =>
        simp only [h1, h2, h3, Option.orElse, Option.getD]
        exact le_of_lt (patAmount_pos _ _ _ h3)
      | none =>
        simp only [h1, h2, h3, Option.orElse, Option.getD]
        norm_num

/-- Helper: extractCategory of search-rss-grants.ts always lands in
the fixed taxonomy. -/
theorem rss_extractCategory_mem (t : JStr) : Rss.extractCategory t ∈ taxonomy := by
  unfold Rss.extractCategory
  cases hf : Rss.categories.find? (fun e => e.2.any (fun kw => containsL kw (lcStr t))) with
  | none =>
    simp only [hf]
    decide
  | some e =>
    simp only [hf]
    have he : e ∈ Rss.categories := List.mem_of_find?_eq_some hf
    simp only [Rss.categories, List.mem_cons, List.not_mem_nil, or_false] at he
    rcases he with he | he | he | he | he | he <;> subst he <;> decide

/-- Helper: the match score of the first worker lies in the 0..100
band (indeed in 70..98). -/
theorem calcMatch_bounds (title desc : JStr) (p : P0.Params) :
    0 ≤ P0.calculateMatchPercentage title desc p
      ∧ P0.calculateMatchPercentage title desc p ≤ 100 := by
  refine ⟨?_, ?_⟩ <;>
    (simp only [P0.calculateMatchPercentage]; split_ifs <;> norm_num)

/-- Helper: every record the USAspending mapper of the first worker
emits satisfies the invariants, provided the requested category is
empty or itself a taxonomy member. -/
theorem searchUSASpending_invariants (p : P0.Params) (raws : List P0.USARaw) (now : SDate)
    (rnd : Nat → Nat) (hcat : p.category = [] ∨ p.category ∈ taxonomy)
    (hnow : validDate now) :
    ∀ g ∈ P0.searchUSASpending p raws now rnd, grantInvariant g := by
  intro g hg
  unfold P0.searchUSASpending at hg
  obtain ⟨pr, _, hmap⟩ := List.mem_map.mp hg
  subst hmap
  refine ⟨abs_nonneg _, (calcMatch_bounds [] [] p).1, (calcMatch_bounds [] [] p).2, ?_, ?_⟩
  · show (if !p.category.isEmpty then p.category else js "Federal") ∈ taxonomy
    cases hc : p.category with
    | nil => simp only [hc, List.isEmpty_nil, Bool.not_true, Bool.false_eq_true, if_false]; decide
    | cons c cs =>
      rcases hcat with hcat | hcat
      · rw [hc] at hcat; exact List.noConfusion hcat
      · simp only [List.isEmpty_cons, Bool.not_false, if_true]
        exact hc ▸ hcat
  · exact validDate_addDays _ _ hnow

/-- Helper: every record parseRSSItem builds satisfies the invariants. -/
theorem parseRSSItem_invariants (itemXml : JStr) (feed : Rss.Feed) (idTok : JStr)
    (pubParse : JStr → Option SDate) (now : SDate) (g : GrantRec)
    (hnow : validDate now) (hpub : ∀ s d, pubParse s = some d → validDate d)
    (h : Rss.parseRSSItem itemXml feed idTok pubParse now = some g) : grantInvariant g := by
  simp only [Rss.parseRSSItem] at h
  by_cases ht : (List.isEmpty (Rss.extractTag itemXml (js "title"))
      || decide (List.length (Rss.extractTag itemXml (js "title")) < 5)) = true
  · rw [if_pos ht] at h
    exact Option.noConfusion h
  · rw [if_neg ht] at h
    rw [← Option.some_inj.mp h]
    refine ⟨rss_extractAmount_nonneg _, by norm_num, by norm_num,
      rss_extractCategory_mem _, ?_⟩
    apply validDate_extractDeadline _ _ _ hnow
    intro d hd
    by_cases hpd : List.isEmpty (Rss.extractTag itemXml (js "pubDate")) = true
    · rw [if_pos hpd] at hd
      exact Option.noConfusion hd
    · rw [if_neg hpd] at hd
      exact hpub _ _ hd

/-- Helper: every record parseRSSFeed emits satisfies the invariants. -/
theorem parseRSSFeed_invariants (xml : JStr) (feed : Rss.Feed) (idTok : Nat → JStr)
    (pubParse : JStr → Option SDate) (now : SDate)
    (hnow : validDate now) (hpub : ∀ s d, pubParse s = some d → validDate d) :
    ∀ g ∈ Rss.parseRSSFeed xml feed idTok pubParse now, grantInvariant g := by
  intro g hg
  unfold Rss.parseRSSFeed at hg
  obtain ⟨pr, _, hpm⟩ := List.mem_filterMap.mp hg
  cases hit : Rss.parseRSSItem pr.2 feed (idTok pr.1) pubParse now with
  | none => rw [hit] at hpm; exact Option.noConfusion hpm
  | some g2 =>
    rw [hit] at hpm
    rw [show (match (some g2 : Option GrantRec) with
        | some g3 => if Rss.isValidGrant g3 then some g3 else none
        | none => none)
      = (if Rss.isValidGrant g2 then some g2 else none) from rfl] at hpm
    by_cases hv : Rss.isValidGrant g2 = true
    · rw [if_pos hv] at hpm
      exact (Option.some_inj.mp hpm) ▸ parseRSSItem_invariants _ _ _ _ _ _ hnow hpub hit
    · rw [if_neg hv] at hpm
      exact Option.noConfusion hpm

/-- Claim C8 is corrected: the searchUSASpending normalization passes
the request's category parameter through to the record unchecked, so a
request category outside the taxonomy yields a record whose category is
not a taxonomy member. -/
theorem adapter_invariants_counterexample :
    ((P0.searchUSASpending ⟨js "x", js "Bogus", [], [], [], []⟩
        [⟨js "42", none, none, none⟩] ⟨2026, 1, 1⟩ (fun _ => 0)).map GrantRec.category)
      = [js "Bogus"] ∧
    js "Bogus" ∉ taxonomy := by
  exact ⟨rfl, by decide⟩

/-- Claim C8, amended: every record produced by the cited adapter
normalizations (the USAspending mapper of the first worker and the RSS
item parser/feed fetch) satisfies the data-model invariants — amount
non-negative, matchPercentage within 0..100, category in the fixed
taxonomy, deadline a valid calendar date, requirements an array by
construction — and calculateMatchPercentage always lies within 0..100;
provided the request's category parameter is empty or itself a taxonomy
member (an arbitrary non-taxonomy request category is passed through to
USAspending records unchecked, as the counterexample shows). -/
theorem adapter_invariants_amended (p : P0.Params) (raws : List P0.USARaw) (now : SDate)
    (rnd : Nat → Nat) (feed : Rss.Feed) (xml : JStr) (idTok : Nat → JStr)
    (pubParse : JStr → Option SDate)
    (hcat : p.category = [] ∨ p.category ∈ taxonomy)
    (hnow : validDate now)
    (hpub : ∀ s d, pubParse s = some d → validDate d) :
    (∀ g ∈ P0.searchUSASpending p raws now rnd, grantInvariant g) ∧
    (∀ g ∈ Rss.parseRSSFeed xml feed idTok pubParse now, grantInvariant g) ∧
    (∀ (o : Rss.FetchOutcome) (g : GrantRec), g ∈ Rss.fetchFeedData feed o idTok pubParse now →
      grantInvariant g) ∧
    (∀ title desc : JStr, 0 ≤ P0.calculateMatchPercentage title desc p
      ∧ P0.calculateMatchPercentage title desc p ≤ 100) := by
  refine ⟨searchUSASpending_invariants p raws now rnd hcat hnow,
    parseRSSFeed_invariants xml feed idTok pubParse now hnow hpub, ?_,
    fun title desc => calcMatch_bounds title desc p⟩
  intro o g hg
  cases o with
  | failure => exact absurd hg (List.not_mem_nil g)
  | response ok body =>
    rw [show Rss.fetchFeedData feed (.response ok body) idTok pubParse now
        = (if (!ok) = true then []
           else if List.isEmpty (trimL body) = true then []
           else if (!(containsL (js "<rss") body || containsL (js "<feed") body
                || containsL (js "<?xml") body)) = true then []
           else Rss.parseRSSFeed body feed idTok pubParse now) from rfl] at hg
    split_ifs at hg with h1 h2 h3
    · exact absurd hg (List.not_mem_nil g)
    · exact absurd hg (List.not_mem_nil g)
    · exact absurd hg (List.not_mem_nil g)
    · exact parseRSSFeed_invariants body feed idTok pubParse now hnow hpub g hg

/-- Witness for the amended C8 theorem: the first record of a concrete
USAspending normalization satisfies the invariants. -/
theorem adapter_invariants_amended_witness :
    grantInvariant
      ((P0.searchUSASpending ⟨js "x", js "Health", [], [], [], []⟩
          [⟨js "42", none, none, none⟩] ⟨2026, 1, 1⟩ (fun _ => 0)).get ⟨0, by decide⟩) := by
  have h := (adapter_invariants_amended ⟨js "x", js "Health", [], [], [], []⟩
      [⟨js "42", none, none, none⟩] ⟨2026, 1, 1⟩ (fun _ => 0)
      ⟨js "u", js "NSF", js "federal", true⟩ (js "<rss>") (fun _ => js "i") (fun _ => none)
      (Or.inr (by decide)) (by decide) (fun s d hd => Option.noConfusion hd)).1
  exact h _ (List.get_mem _ _ _)

/-- Witness for the amended C7 theorem at concrete inputs. -/
theorem category_table_amended_witness :
    Rss.extractCategory (js "medical and health work") = js "Health" ∧
    SearchBasic.extractCategory (js "school education work") [] = js "Education" ∧
    SearchBasic.extractCategory (js "anything") (js "Youth") = js "Youth" :=
  ⟨category_table_amended.1 (js "medical and health work") (by decide),
   category_table_amended.2.1 (js "school education work") (by decide),
   category_table_amended.2.2.1 (js "anything") (js "Youth") (by decide)⟩

end GrantTracker
